import Mathlib

/-!
Verification development for the migration planner of the `nx migrate` command
(`packages/nx/src/command-line/migrate.ts`).

The TypeScript source is embedded shallowly:
* the npm `semver` library primitives the planner uses (`gt`, `lt`, `gte`,
  `lte`, `valid`) are modelled by an executable strict semver parser and
  comparator (`semverParse`, `semverCompare`);
* `satisfies`, `clean` and `coerce` are only ever used through opaque calls
  whose results the planner never inspects structurally, so they are carried
  as function-valued fields of the `Migrator` record;
* the `Migrator` class becomes a record of its constructor arguments plus an
  explicit mutable-state record `MigState` threaded through the methods;
* `async`/`Promise.all` recursion is serialised left-to-right and bounded by
  an explicit fuel argument; JavaScript exceptions become `Except String`.
-/

/-! ## Semver model (npm `semver`, strict parsing as used by `gt`/`lt`/…) -/

/-- Largest integer allowed for a numeric component (`Number.MAX_SAFE_INTEGER`). -/
def MAX_SAFE_INTEGER : Nat := 9007199254740991

/-- A prerelease identifier: the `SemVer` constructor stores all-digit
identifiers whose value fits below `MAX_SAFE_INTEGER` as numbers and every
other identifier as a string. -/
inductive PreId where
  | num : Nat → PreId
  | str : String → PreId
deriving DecidableEq, Repr

/-- Parsed semantic version.  Build metadata is validated but not stored,
matching npm semver comparison semantics (build is ignored). -/
structure Semver where
  major : Nat
  minor : Nat
  patch : Nat
  prerelease : List PreId
deriving DecidableEq, Repr

def takeDigits : List Char → (List Char × List Char)
  | [] => ([], [])
  | c :: rest =>
    if c.isDigit then
      let (d, r) := takeDigits rest
      (c :: d, r)
    else ([], c :: rest)

def digitsToNat (ds : List Char) : Nat :=
  ds.foldl (fun acc c => acc * 10 + (c.toNat - 48)) 0

/-- Strict numeric identifier (`0 | [1-9][0-9]*`) followed by the rest. -/
def parseNumId (cs : List Char) : Option (Nat × List Char) :=
  match takeDigits cs with
  | ([], _) => none
  | (ds, rest) =>
    if ds.length > 1 && ds.headD '0' == '0' then none
    else some (digitsToNat ds, rest)

def expectChar (c : Char) : List Char → Option (List Char)
  | x :: rest => if x == c then some rest else none
  | [] => none

/-- Characters allowed in prerelease and build identifiers (`[0-9A-Za-z-]`). -/
def idChar (c : Char) : Bool := c.isDigit || c.isAlpha || c == '-'

/-- Split at the first occurrence of a character, returning the part before it
and, when present, the part after it. -/
def splitAtChar (c : Char) : List Char → (List Char × Option (List Char))
  | [] => ([], none)
  | x :: rest =>
    if x == c then ([], some rest)
    else
      let (pre, post) := splitAtChar c rest
      (x :: pre, post)

/-- Split a character list on every occurrence of a separator (like
`String.split` in JavaScript: no empty-part suppression). -/
def splitOnChar (c : Char) : List Char → List (List Char)
  | [] => [[]]
  | x :: rest =>
    if x == c then [] :: splitOnChar c rest
    else
      match splitOnChar c rest with
      | [] => [[x]]
      | part :: parts => (x :: part) :: parts

/-- JavaScript `String.prototype.trim` whitespace (ASCII part; the modelled
inputs contain no exotic unicode spaces). -/
def jsWhitespace (c : Char) : Bool :=
  c == ' ' || c == '\t' || c == '\n' || c == '\r' || c == '\x0b' || c == '\x0c'

def trimChars (cs : List Char) : List Char :=
  ((cs.dropWhile jsWhitespace).reverse.dropWhile jsWhitespace).reverse

def jsTrim (s : String) : String := String.mk (trimChars s.data)

/-- `String.prototype.includes`. -/
def containsSub (pat : List Char) : List Char → Bool
  | [] => pat.isEmpty
  | c :: rest => List.isPrefixOf pat (c :: rest) || containsSub pat rest

/-- Prerelease identifier validity per the strict regex: non-empty, identifier
characters only, and all-digit identifiers carry no leading zero. -/
def validPreId (cs : List Char) : Bool :=
  !cs.isEmpty && cs.all idChar &&
    (if cs.all Char.isDigit then cs.length == 1 || cs.headD '0' != '0' else true)

/-- Build identifier validity (`[0-9A-Za-z-]+`, leading zeros allowed). -/
def validBuildId (cs : List Char) : Bool :=
  !cs.isEmpty && cs.all idChar

def toPreId (cs : List Char) : PreId :=
  if cs.all Char.isDigit && digitsToNat cs < MAX_SAFE_INTEGER then .num (digitsToNat cs)
  else .str (String.mk cs)

/-- Strict parse, as performed by `new SemVer(version)` with default options:
trim, optional leading `v`, `major.minor.patch` numeric identifiers, optional
`-prerelease` and `+build`.  `none` models a thrown `Invalid Version` error. -/
def semverParse (s : String) : Option Semver :=
  if s.length > 256 then none
  else
    let cs :=
      match trimChars s.data with
      | 'v' :: rest => rest
      | cs => cs
    match parseNumId cs with
    | none => none
    | some (major, cs) =>
      if major > MAX_SAFE_INTEGER then none
      else
        match expectChar '.' cs with
        | none => none
        | some cs =>
          match parseNumId cs with
          | none => none
          | some (minor, cs) =>
            if minor > MAX_SAFE_INTEGER then none
            else
              match expectChar '.' cs with
              | none => none
              | some cs =>
                match parseNumId cs with
                | none => none
                | some (patch, cs) =>
                  if patch > MAX_SAFE_INTEGER then none
                  else
                    match cs with
                    | [] => some ⟨major, minor, patch, []⟩
                    | '-' :: rest =>
                      let (preChars, buildPart) := splitAtChar '+' rest
                      let preIds := splitOnChar '.' preChars
                      if preIds.all validPreId then
                        match buildPart with
                        | none => some ⟨major, minor, patch, preIds.map toPreId⟩
                        | some b =>
                          if (splitOnChar '.' b).all validBuildId then
                            some ⟨major, minor, patch, preIds.map toPreId⟩
                          else none
                      else none
                    | '+' :: rest =>
                      if (splitOnChar '.' rest).all validBuildId then
                        some ⟨major, minor, patch, []⟩
                      else none
                    | _ => none

/-! ### Comparison -/

def cmpN (a b : Nat) : Ordering :=
  if a < b then .lt else if b < a then .gt else .eq

/-- Lexicographic comparison of character lists by code point (JavaScript
string `<`). -/
def cmpChars : List Char → List Char → Ordering
  | [], [] => .eq
  | [], _ :: _ => .lt
  | _ :: _, [] => .gt
  | a :: as, b :: bs => (cmpN a.toNat b.toNat).then (cmpChars as bs)

/-- `compareIdentifiers`: numeric identifiers sort below string identifiers and
numerically among themselves; strings compare lexicographically.  (All-digit
string identifiers only arise for values at or above `MAX_SAFE_INTEGER`, where
JavaScript's lossy float comparison is approximated lexicographically; no
input in this development reaches that range.) -/
def cmpId : PreId → PreId → Ordering
  | .num a, .num b => cmpN a b
  | .num _, .str _ => .lt
  | .str _, .num _ => .gt
  | .str a, .str b => cmpChars a.data b.data

/-- Pairwise prerelease comparison once both lists are known non-empty: a
shorter list that is a prefix of the other sorts first. -/
def cmpPreRest : List PreId → List PreId → Ordering
  | [], [] => .eq
  | [], _ :: _ => .lt
  | _ :: _, [] => .gt
  | a :: as, b :: bs => (cmpId a b).then (cmpPreRest as bs)

/-- `comparePre`: a version without prerelease sorts above one with. -/
def cmpPre : List PreId → List PreId → Ordering
  | [], [] => .eq
  | [], _ :: _ => .gt
  | _ :: _, [] => .lt
  | a :: as, b :: bs => (cmpId a b).then (cmpPreRest as bs)

def semverCompare (a b : Semver) : Ordering :=
  (cmpN a.major b.major).then
    ((cmpN a.minor b.minor).then
      ((cmpN a.patch b.patch).then (cmpPre a.prerelease b.prerelease)))

/-- `semver.gt(a, b)`; `none` models the thrown error on an invalid version. -/
def semverGt (a b : String) : Option Bool :=
  match semverParse a with
  | none => none
  | some x =>
    match semverParse b with
    | none => none
    | some y => some (semverCompare x y == Ordering.gt)

def semverLt (a b : String) : Option Bool :=
  match semverParse a with
  | none => none
  | some x =>
    match semverParse b with
    | none => none
    | some y => some (semverCompare x y == Ordering.lt)

def semverGte (a b : String) : Option Bool :=
  match semverParse a with
  | none => none
  | some x =>
    match semverParse b with
    | none => none
    | some y => some (semverCompare x y != Ordering.lt)

def semverLte (a b : String) : Option Bool :=
  match semverParse a with
  | none => none
  | some x =>
    match semverParse b with
    | none => none
    | some y => some (semverCompare x y != Ordering.gt)

/-! ## `normalizeVersion` -/

/-- `${x || 0}` on an optionally-missing string component. -/
def orZero : Option String → String
  | none => "0"
  | some s => if s == "" then "0" else s

/-- The four variations `normalizeVersion` tries in order:
`newVersion`, `newSemver`, `withoutPatch`, `withoutPatchAndMinor`. -/
def normalizeVariations (version : String) : List String :=
  let parts := (splitOnChar '-' version.data).map String.mk
  let semver := parts.headD ""
  let prereleaseTag := parts[1]?
  let comps := (splitOnChar '.' semver.data).map String.mk
  let major := orZero comps[0]?
  let minor := orZero comps[1]?
  let patch := orZero comps[2]?
  let newSemver := major ++ "." ++ minor ++ "." ++ patch
  let newVersion :=
    match prereleaseTag with
    | some t => if t == "" then newSemver else newSemver ++ "-" ++ t
    | none => newSemver
  let withoutPatch := major ++ "." ++ minor ++ ".0"
  let withoutPatchAndMinor := major ++ ".0.0"
  [newVersion, newSemver, withoutPatch, withoutPatchAndMinor]

/-- The `for`-loop of `normalizeVersion`: first variation that is a valid
semver strictly greater than `0.0.0` (a thrown comparison counts as failure). -/
def firstValidVariation : List String → Option String
  | [] => none
  | v :: rest =>
    if semverGt v "0.0.0" == some true then some v else firstValidVariation rest

def normalizeVersion (version : String) : String :=
  (firstValidVariation (normalizeVariations version)).getD "0.0.0"

/-- `this.gt` of the `Migrator`: compare after `normalizeVersion`.  The
normalised strings always parse (`normalizeVersion_parses`), so the `getD`
default is never observed — in JavaScript an invalid version would throw. -/
def migratorGt (v1 v2 : String) : Bool :=
  (semverGt (normalizeVersion v1) (normalizeVersion v2)).getD false

/-- `this.lte` of the `Migrator`: compare after `normalizeVersion`. -/
def migratorLte (v1 v2 : String) : Bool :=
  (semverLte (normalizeVersion v1) (normalizeVersion v2)).getD false

/-- `normalizeVersionWithTagCheck`: the tags pass through unchanged. -/
def normalizeVersionWithTagCheck (version : String) : String :=
  if version == "latest" || version == "next" then version
  else normalizeVersion version

/-! ## Data model (`misc-interfaces` + `ResolvedMigrationConfiguration`) -/

/-- Association lists stand in for JavaScript objects; JavaScript guarantees
unique keys, and iteration order is insertion order. -/
abbrev VMap := List (String × String)

/-- Object property lookup. -/
def alookup {α : Type} (l : List (String × α)) (k : String) : Option α :=
  match l with
  | [] => none
  | (k', v) :: rest => if k' == k then some v else alookup rest k

/-- Object property assignment: replace in place, else append (JavaScript key
order semantics). -/
def setKey {α : Type} (l : List (String × α)) (k : String) (v : α) : List (String × α) :=
  match l with
  | [] => [(k, v)]
  | (k', v') :: rest => if k' == k then (k, v) :: rest else (k', v') :: setKey rest k v

/-- `obj[k] ??= v`: assign only when the key is absent. -/
def setIfAbsent {α : Type} (l : List (String × α)) (k : String) (v : α) : List (String × α) :=
  match alookup l k with
  | some _ => l
  | none => setKey l k v

/-- JavaScript truthiness of a nullable string (`null`/`undefined` and `""`
are falsy). -/
def strTruthy : Option String → Bool
  | none => false
  | some s => s != ""

/-- `PackageJsonUpdateForPackage` (aliased `PackageUpdate` in the source):
used both as the recursion target `{version, addToPackageJson}` and as an
entry of a `packages` map.  `addToPackageJson = none` covers both `false` and
`undefined`. -/
structure PackageUpdateData where
  version : String
  addToPackageJson : Option String := none
  alwaysAddToPackageJson : Bool := false
  ifPackageInstalled : Option String := none
deriving DecidableEq, Repr

/-- One value of the `packageJsonUpdates` map of a migration document. -/
structure PackageJsonUpdate where
  version : String
  packages : Option (List (String × PackageUpdateData)) := none
  requires : Option VMap := none
  xPrompt : Option String := none
deriving DecidableEq, Repr

structure PackageGroupEntry where
  package : String
  version : String
deriving DecidableEq, Repr

/-- `MigrationsJsonEntry`: a migration script descriptor. -/
structure MigrationsJsonEntry where
  version : Option String := none
  description : Option String := none
  cli : Option String := none
  implementation : Option String := none
  requires : Option VMap := none
deriving DecidableEq, Repr

/-- `ResolvedMigrationConfiguration`: the fetched migration document. -/
structure MigrationConfig where
  version : String
  packageGroup : Option (List PackageGroupEntry) := none
  packageJsonUpdates : Option (List (String × PackageJsonUpdate)) := none
  generators : Option (List (String × MigrationsJsonEntry)) := none
deriving DecidableEq, Repr

/-- A migration emitted by `createMigrateJson` (`{...migration, package, name}`)
and also the shape written into `migrations.json`. -/
structure OutputMigration extends MigrationsJsonEntry where
  package : String
  name : String
deriving DecidableEq, Repr

structure PackageJson where
  dependencies : Option VMap := none
  devDependencies : Option VMap := none
deriving DecidableEq, Repr

/-- A deferred `{package, updates}` item returned by
`populatePackageJsonUpdatesAndGetPackagesToCheck`. -/
structure DeferredPackageUpdate where
  package : String
  updates : List PackageJsonUpdate
deriving DecidableEq, Repr

/-- Constructor arguments of the `Migrator` class.  `satisfiesFn` models
`semver.satisfies(v, range, {includePrerelease: true})` and `cleanSemverFn`
models `clean(v) ?? coerce(v)` (`none` = `null`); both are external npm
`semver` operations whose results the planner only branches on.  `from`
(the `installedPkgVersionOverrides`) is mutable and therefore lives in
`MigState`, not here. -/
structure Migrator where
  packageJson : PackageJson
  getInstalledPackageVersion : String → Option VMap → Option String
  fetch : String → String → Except String MigrationConfig
  «to» : VMap
  interactive : Bool := false
  excludeAppliedMigrations : Bool := false
  satisfiesFn : String → String → Bool
  cleanSemverFn : String → Option String

/-- The mutable per-run state of a `Migrator` instance. -/
structure MigState where
  packageUpdates : List (String × PackageUpdateData) := []
  collectedVersions : VMap := []
  installedPkgVersionOverrides : VMap := []

/-! ## `Migrator` methods -/

/-- `this.getPkgVersion(pkg)`: resolver consulted with the current `--from`
overrides. -/
def Migrator.getPkgVersion (M : Migrator) (s : MigState) (pkg : String) : Option String :=
  M.getInstalledPackageVersion pkg (some s.installedPkgVersionOverrides)

/-- `addPackageUpdate`: store only when absent or strictly newer. -/
def addPackageUpdate (packageUpdates : List (String × PackageUpdateData))
    (name : String) (packageUpdate : PackageUpdateData) : List (String × PackageUpdateData) :=
  match alookup packageUpdates name with
  | none => setKey packageUpdates name packageUpdate
  | some old =>
    if migratorGt packageUpdate.version old.version then
      setKey packageUpdates name packageUpdate
    else packageUpdates

/-- `areRequirementsMet`: every required package must be satisfied by the
installed version, the accumulated plan, or the peer set being filtered. -/
def Migrator.areRequirementsMet (M : Migrator) (s : MigState)
    (requirements : Option VMap)
    (extraPackageUpdatesToCheck : Option (List (String × PackageUpdateData))) : Bool :=
  match requirements with
  | none => true
  | some reqs =>
    if reqs.isEmpty then true
    else
      reqs.all fun pr =>
        (match M.getPkgVersion s pr.1 with
         | some v => v != "" && M.satisfiesFn v pr.2
         | none => false) ||
        (match alookup s.packageUpdates pr.1 with
         | some u => u.version != "" && M.satisfiesFn u.version pr.2
         | none => false) ||
        (match extraPackageUpdatesToCheck with
         | none => false
         | some extra =>
           match alookup extra pr.1 with
           | none => false
           | some u =>
             u.version != "" &&
               (match M.cleanSemverFn u.version with
                | some c => M.satisfiesFn c pr.2
                | none => false))

/-- `wasMigrationSkipped`: non-empty requirements of which at least one is not
met by the workspace (resolver consulted without overrides). -/
def Migrator.wasMigrationSkipped (M : Migrator) (requirements : Option VMap) : Bool :=
  match requirements with
  | none => false
  | some reqs =>
    if reqs.isEmpty then false
    else
      reqs.any fun pr =>
        match M.getInstalledPackageVersion pr.1 none with
        | none => true
        | some v => if v == "" then true else !(M.satisfiesFn v pr.2)

/-- `isMigrationForHigherVersionThanWhatIsInstalled`.  The resolver is
consulted *without* the `--from` overrides here.  When the package has no
entry in `packageUpdates` the JavaScript code throws a `TypeError`; callers
always guarantee the entry exists, and the model returns `false` there. -/
def Migrator.isMigrationForHigherVersionThanWhatIsInstalled (M : Migrator) (s : MigState)
    (packageName : String) (migration : MigrationsJsonEntry) : Bool :=
  let installedVersion := M.getInstalledPackageVersion packageName none
  match migration.version with
  | none => false
  | some mv =>
    if mv == "" then false
    else
      (match installedVersion with
       | none => true
       | some iv => if iv == "" then true else migratorGt mv iv) &&
      (match alookup s.packageUpdates packageName with
       | some pu => migratorLte mv pu.version
       | none => false)

/-- `areMigrationRequirementsMet`: the Phase-2 gate. -/
def Migrator.areMigrationRequirementsMet (M : Migrator) (s : MigState)
    (packageName : String) (migration : MigrationsJsonEntry) : Bool :=
  if !M.excludeAppliedMigrations then M.areRequirementsMet s migration.requires none
  else
    (M.wasMigrationSkipped migration.requires ||
      M.isMigrationForHigherVersionThanWhatIsInstalled s packageName migration) &&
    M.areRequirementsMet s migration.requires none

/-- The body of `createMigrateJson` for one `packageUpdates` entry. -/
def Migrator.createMigrateJsonForPackage (M : Migrator) (s : MigState)
    (packageName : String) (pu : PackageUpdateData) : Except String (List OutputMigration) :=
  match M.getPkgVersion s packageName with
  | none => .ok []
  | some currentVersion =>
    match M.fetch packageName pu.version with
    | .error e => .error e
    | .ok config =>
      match config.generators with
      | none => .ok []
      | some generators =>
        .ok ((generators.filter fun g =>
            (match g.2.version with
             | some mv =>
               mv != "" && migratorGt mv currentVersion && migratorLte mv pu.version &&
                 M.areMigrationRequirementsMet s packageName g.2
             | none => false)).map
          fun g => { toMigrationsJsonEntry := g.2, package := packageName, name := g.1 })

def Migrator.createMigrateJsonEntries (M : Migrator) (s : MigState) :
    List (String × PackageUpdateData) → Except String (List (List OutputMigration))
  | [] => .ok []
  | (packageName, pu) :: rest =>
    match M.createMigrateJsonForPackage s packageName pu with
    | .error e => .error e
    | .ok ms =>
      match M.createMigrateJsonEntries s rest with
      | .error e => .error e
      | .ok rests => .ok (ms :: rests)

/-- `createMigrateJson`: Phase 2, flattening the per-package lists in
`Object.keys(this.packageUpdates)` order. -/
def Migrator.createMigrateJson (M : Migrator) (s : MigState) :
    Except String (List OutputMigration) :=
  match M.createMigrateJsonEntries s s.packageUpdates with
  | .error e => .error e
  | .ok lists => .ok lists.flatten

/-! ## Package-group expansion and `packageJsonUpdates` filtering -/

def LEGACY_NRWL_PACKAGE_GROUP : List PackageGroupEntry :=
  [⟨"@nrwl/workspace", "*"⟩,
   ⟨"@nrwl/angular", "*"⟩,
   ⟨"@nrwl/cypress", "*"⟩,
   ⟨"@nrwl/devkit", "*"⟩,
   ⟨"@nrwl/eslint-plugin-nx", "*"⟩,
   ⟨"@nrwl/express", "*"⟩,
   ⟨"@nrwl/jest", "*"⟩,
   ⟨"@nrwl/linter", "*"⟩,
   ⟨"@nrwl/nest", "*"⟩,
   ⟨"@nrwl/next", "*"⟩,
   ⟨"@nrwl/node", "*"⟩,
   ⟨"@nrwl/nx-plugin", "*"⟩,
   ⟨"@nrwl/react", "*"⟩,
   ⟨"@nrwl/storybook", "*"⟩,
   ⟨"@nrwl/web", "*"⟩,
   ⟨"@nrwl/js", "*"⟩,
   ⟨"@nrwl/cli", "*"⟩,
   ⟨"@nrwl/nx-cloud", "latest"⟩,
   ⟨"@nrwl/react-native", "*"⟩,
   ⟨"@nrwl/detox", "*"⟩,
   ⟨"@nrwl/expo", "*"⟩]

/-- The loop body of `getPackageJsonUpdatesFromPackageGroup`: build the
synthetic `packages` map and propagate `--from` overrides of the parent to
wildcard members. -/
def packageGroupPackages (packageName targetVersion : String) :
    List PackageGroupEntry → List (String × PackageUpdateData) → VMap →
    (List (String × PackageUpdateData) × VMap)
  | [], packages, overrides => (packages, overrides)
  | pc :: rest, packages, overrides =>
    let packages :=
      setKey packages pc.package
        { version := if pc.version == "*" then targetVersion else pc.version,
          alwaysAddToPackageJson := false }
    let overrides :=
      if pc.version == "*" && strTruthy (alookup overrides packageName) then
        setIfAbsent overrides pc.package ((alookup overrides packageName).getD "")
      else overrides
    packageGroupPackages packageName targetVersion rest packages overrides

/-- `getPackageJsonUpdatesFromPackageGroup`: selects the (possibly legacy)
group, injects the synthetic `"<version>--PackageGroup"` entry into the
document, mutates the override map, and returns the group order together with
the updated document and overrides. -/
def Migrator.getPackageJsonUpdatesFromPackageGroup (_M : Migrator) (s : MigState)
    (packageName targetVersion : String) (migrationConfig : MigrationConfig) :
    Except String (List String × MigrationConfig × VMap) :=
  match
    (if packageName == "@nrwl/workspace" then
       match semverLt targetVersion "14.0.0-beta.0" with
       | none => none
       | some true => some LEGACY_NRWL_PACKAGE_GROUP
       | some false => some (migrationConfig.packageGroup.getD [])
     else some (migrationConfig.packageGroup.getD [])) with
  | none => .error "Invalid Version"
  | some packageGroup =>
    if packageGroup.isEmpty then
      .ok ([], migrationConfig, s.installedPkgVersionOverrides)
    else
      let packageGroupOrder := packageGroup.map (·.package)
      let (packages, overrides) :=
        packageGroupPackages packageName targetVersion packageGroup []
          s.installedPkgVersionOverrides
      let updates :=
        setKey (migrationConfig.packageJsonUpdates.getD [])
          (targetVersion ++ "--PackageGroup")
          { version := targetVersion, packages := some packages }
      .ok (packageGroupOrder,
        { migrationConfig with packageJsonUpdates := some updates }, overrides)

/-- The per-child retention predicate of `filterPackageJsonUpdates` (the
filter callback over `Object.entries(packageJsonUpdate.packages)`). -/
def Migrator.keepPackageUpdate (M : Migrator) (s : MigState)
    (packageName : String) (packageUpdate : PackageUpdateData) : Bool :=
  (match packageUpdate.ifPackageInstalled with
   | none => true
   | some g => if g == "" then true else strTruthy (M.getPkgVersion s g)) &&
  (packageUpdate.alwaysAddToPackageJson || strTruthy packageUpdate.addToPackageJson ||
    strTruthy (alookup (M.packageJson.dependencies.getD []) packageName) ||
    strTruthy (alookup (M.packageJson.devDependencies.getD []) packageName)) &&
  (match alookup s.collectedVersions packageName with
   | none => true
   | some cv => if cv == "" then true else migratorGt packageUpdate.version cv)

/-- The per-child rewrite of `filterPackageJsonUpdates` (the `reduce`). -/
def rewritePackageUpdate (packageUpdate : PackageUpdateData) : PackageUpdateData :=
  { version := packageUpdate.version,
    addToPackageJson :=
      if packageUpdate.alwaysAddToPackageJson then some "dependencies"
      else if strTruthy packageUpdate.addToPackageJson then packageUpdate.addToPackageJson
      else none }

/-- Surviving, rewritten `packages` entries of one candidate update. -/
def Migrator.filteredPackages (M : Migrator) (s : MigState)
    (pkgs : List (String × PackageUpdateData)) : List (String × PackageUpdateData) :=
  (pkgs.filter fun c => M.keepPackageUpdate s c.1 c.2).foldl
    (fun acc c => setKey acc c.1 (rewritePackageUpdate c.2)) []

/-- `filterPackageJsonUpdates`.  When the planner's installed version of
`packageName` is `null`, the JavaScript code would throw a `TypeError` inside
`normalizeVersion`; callers only invoke the filter when the package is
installed. -/
def Migrator.filterPackageJsonUpdates (M : Migrator) (s : MigState)
    (packageName targetVersion : String) :
    List PackageJsonUpdate → Except String (List PackageJsonUpdate)
  | [] => .ok []
  | u :: rest =>
    match u.packages with
    | none => M.filterPackageJsonUpdates s packageName targetVersion rest
    | some pkgs =>
      match M.getPkgVersion s packageName with
      | none => .error "TypeError: Cannot read properties of null"
      | some installed =>
        if migratorLte u.version installed || migratorGt u.version targetVersion then
          M.filterPackageJsonUpdates s packageName targetVersion rest
        else
          let filtered := M.filteredPackages s pkgs
          match M.filterPackageJsonUpdates s packageName targetVersion rest with
          | .error e => .error e
          | .ok rests =>
            if filtered.isEmpty then .ok rests
            else .ok ({ u with packages := some filtered } :: rests)

/-- `getPackageJsonUpdatesFromMigrationConfig`: expansion, the guard on a
missing `packageJsonUpdates` object or an uninstalled package, then the
filter.  Returns the filtered updates, the group order, the mutated document
and the mutated overrides. -/
def Migrator.getPackageJsonUpdatesFromMigrationConfig (M : Migrator) (s : MigState)
    (packageName targetVersion : String) (migrationConfig : MigrationConfig) :
    Except String (List PackageJsonUpdate × List String × MigrationConfig × VMap) :=
  match M.getPackageJsonUpdatesFromPackageGroup s packageName targetVersion migrationConfig with
  | .error e => .error e
  | .ok (packageGroupOrder, config, overrides) =>
    let s := { s with installedPkgVersionOverrides := overrides }
    if config.packageJsonUpdates.isNone || !(strTruthy (M.getPkgVersion s packageName)) then
      .ok ([], packageGroupOrder, config, overrides)
    else
      match M.filterPackageJsonUpdates s packageName targetVersion
          ((config.packageJsonUpdates.getD []).map (·.2)) with
      | .error e => .error e
      | .ok updates => .ok (updates, packageGroupOrder, config, overrides)

/-! ## `populatePackageJsonUpdatesAndGetPackagesToCheck` -/

/-- `Array.prototype.indexOf`: `-1` when absent. -/
def indexOfStr : List String → String → Int
  | [], _ => -1
  | y :: rest, x =>
    if y == x then 0
    else
      match indexOfStr rest x with
      | -1 => -1
      | r => r + 1

/-- Stable insertion used by `sortByGroupOrder`. -/
def insertOrd (le : DeferredPackageUpdate → DeferredPackageUpdate → Bool)
    (x : DeferredPackageUpdate) : List DeferredPackageUpdate → List DeferredPackageUpdate
  | [] => [x]
  | y :: ys => if le y x then y :: insertOrd le x ys else x :: y :: ys

/-- The stable `.sort((a, b) => order.indexOf(a.package) - order.indexOf(b.package))`
(ECMAScript sorts are stable), as a stable insertion sort. -/
def sortByGroupOrder (packageGroupOrder : List String)
    (l : List DeferredPackageUpdate) : List DeferredPackageUpdate :=
  l.foldl
    (fun acc x =>
      insertOrd
        (fun a b =>
          indexOfStr packageGroupOrder a.package ≤ indexOfStr packageGroupOrder b.package)
        x acc)
    []

/-- The `targetVersion` selection at the top of
`populatePackageJsonUpdatesAndGetPackagesToCheck`: a truthy `--to` override
replaces the caller-requested version. -/
def Migrator.resolveToVersion (M : Migrator) (targetPackage version : String) : String :=
  match alookup M.«to» targetPackage with
  | some t => if t == "" then version else t
  | none => version

/-- Sequential recursion over the merged `packages` entries (the serialised
`Promise.all`). -/
def populateChildren
    (rec : MigState → String → PackageUpdateData →
      Except String (List DeferredPackageUpdate × MigState)) :
    List (String × PackageUpdateData) → MigState →
    Except String (List (List DeferredPackageUpdate) × MigState)
  | [], s => .ok ([], s)
  | (name, pu) :: rest, s =>
    match rec s name pu with
    | .error e => .error e
    | .ok (r, s') =>
      match populateChildren rec rest s' with
      | .error e => .error e
      | .ok (rs, s'') => .ok (r :: rs, s'')

/-- The tail of `populatePackageJsonUpdatesAndGetPackagesToCheck` after the
fixed-point check has passed: record the plan entry, expand and filter the
document, and either defer, stop, or recurse through `rec`. -/
def Migrator.populateRest (M : Migrator)
    (rec : MigState → String → PackageUpdateData →
      Except String (List DeferredPackageUpdate × MigState))
    (s : MigState) (targetPackage : String) (target : PackageUpdateData)
    (migrationConfig : MigrationConfig) :
    Except String (List DeferredPackageUpdate × MigState) :=
  let targetVersion := migrationConfig.version
  let s :=
    { s with
      packageUpdates :=
        addPackageUpdate s.packageUpdates targetPackage
          { version := migrationConfig.version, addToPackageJson := target.addToPackageJson } }
  match M.getPackageJsonUpdatesFromMigrationConfig s targetPackage targetVersion
      migrationConfig with
  | .error e => .error e
  | .ok (packageJsonUpdates, packageGroupOrder, _, overrides) =>
    let s := { s with installedPkgVersionOverrides := overrides }
    if packageJsonUpdates.isEmpty then .ok ([], s)
    else if packageJsonUpdates.any fun u =>
        (M.interactive && strTruthy u.xPrompt) || !(u.requires.getD []).isEmpty then
      .ok ([⟨targetPackage, packageJsonUpdates⟩], s)
    else
      let packageUpdatesToApply :=
        packageJsonUpdates.foldl
          (fun acc u => (u.packages.getD []).foldl (fun acc2 c => setKey acc2 c.1 c.2) acc) []
      match populateChildren rec packageUpdatesToApply s with
      | .error e => .error e
      | .ok (results, s') =>
        .ok (sortByGroupOrder packageGroupOrder
          ((results.filter fun r => !r.isEmpty).flatten), s')

/-- `populatePackageJsonUpdatesAndGetPackagesToCheck`, recursion bounded by
fuel (the `collectedVersions` fixed-point check bounds it in practice). -/
def Migrator.populatePackageJsonUpdatesAndGetPackagesToCheck (M : Migrator) :
    Nat → MigState → String → PackageUpdateData →
    Except String (List DeferredPackageUpdate × MigState)
  | 0, _, _, _ => .error "recursion limit exceeded"
  | fuel + 1, s, targetPackage, target =>
    let targetVersion := M.resolveToVersion targetPackage target.version
    if !(strTruthy (M.getPkgVersion s targetPackage)) then
      .ok ([],
        { s with
          packageUpdates :=
            addPackageUpdate s.packageUpdates targetPackage
              { version := target.version, addToPackageJson := target.addToPackageJson } })
    else
      match
        (match M.fetch targetPackage targetVersion with
         | .error e =>
           if containsSub "No matching version".data e.data then
             Except.error
               (e ++ "\nRun migrate with --to=\"package1@version1,package2@version2\"")
           else Except.error e
         | .ok c => Except.ok c : Except String MigrationConfig) with
      | .error e => .error e
      | .ok migrationConfig =>
        let targetVersion := migrationConfig.version
        match
          (match alookup s.collectedVersions targetPackage with
           | some cv =>
             if cv == "" then some false
             else
               match semverGte cv targetVersion with
               | some b => some b
               | none => none
           | none => some false) with
        | none => .error "Invalid Version"
        | some true => .ok ([], s)
        | some false =>
          M.populateRest
            (fun s' p t => M.populatePackageJsonUpdatesAndGetPackagesToCheck fuel s' p t)
            { s with
              collectedVersions := setKey s.collectedVersions targetPackage targetVersion }
            targetPackage target migrationConfig

/-! ## `parseTargetPackageAndVersion` -/

/-- `String.prototype.lastIndexOf` for a single character, on a string known
to contain it. -/
def lastIdxOf (cs : List Char) (c : Char) : Int :=
  match cs with
  | [] => -1
  | x :: rest =>
    match lastIdxOf rest c with
    | -1 => if x == c then 0 else -1
    | r => r + 1

/-- `args.match(/^\d+(?:\.\d+)?(?:\.\d+)?$/)`: one to three dot-separated
digit groups. -/
def matchesBareVersionShape (s : String) : Bool :=
  let parts := splitOnChar '.' s.data
  parts.length ≤ 3 && parts.all fun p => !p.isEmpty && p.all Char.isDigit

/-- `parseTargetPackageAndVersion`; `none` models a thrown error. -/
def parseTargetPackageAndVersion (args : String) : Option (String × String) :=
  if args == "" then none
  else if args.data.contains '@' then
    let i := lastIdxOf args.data '@'
    if i == 0 then some (jsTrim args, "latest")
    else
      let targetPackage := String.mk (args.data.take i.toNat)
      let maybeVersion := String.mk (args.data.drop (i.toNat + 1))
      if targetPackage == "" || maybeVersion == "" then none
      else some (targetPackage, normalizeVersionWithTagCheck maybeVersion)
  else
    if args == "latest" || args == "next" || (semverParse args).isSome ||
        matchesBareVersionShape args then
      let targetVersion := normalizeVersionWithTagCheck args
      some
        (if !(args == "latest" || args == "next") &&
            (semverLt targetVersion "14.0.0-beta.0").getD false then
          "@nrwl/workspace"
        else "nx", targetVersion)
    else some (args, "latest")

/-! ## Plan writer: the split-configuration synthetic migration -/

/-- The hard-coded migration prepended when crossing `15.7.0-beta.0`. -/
def splitConfigurationMigration : OutputMigration :=
  { version := some "15.7.0-beta.0",
    description :=
      some ("Split global configuration files into individual project.json files. " ++
        "This migration has been added automatically to the beginning of your " ++
        "migration set to retroactively make them work with the new version of Nx."),
    cli := some "nx",
    implementation :=
      some "./src/migrations/update-15-7-0/split-configuration-into-project-json-files",
    package := "@nrwl/workspace",
    name := "15-7-0-split-configuration-into-project-json-files" }

/-- `addSplitConfigurationMigrationIfAvailable`: `from` is the workspace's
prior nx version read from `package.json`; `none` models a thrown
`Invalid Version` error of the raw `gte`/`lt` comparisons. -/
def addSplitConfigurationMigrationIfAvailable («from» : String)
    (packageUpdates : List (String × PackageUpdateData)) :
    Except String (List OutputMigration) :=
  match alookup packageUpdates "@nrwl/workspace" with
  | none => .ok []
  | some pu =>
    match semverGte pu.version "15.7.0-beta.0" with
    | none => .error "Invalid Version"
    | some false => .ok []
    | some true =>
      match semverLt «from» "15.7.0-beta.0" with
      | none => .error "Invalid Version"
      | some true => .ok [splitConfigurationMigration]
      | some false => .ok []

/-- The migrations-file write in `generateMigrationsJsonAndUpdatePackageJson`:
written only when the planner emitted migrations, with the synthetic entry
prepended when available.  `ok none` means no file is created. -/
def migrationsFileContent («from» : String)
    (packageUpdates : List (String × PackageUpdateData))
    (migrations : List OutputMigration) :
    Except String (Option (List OutputMigration)) :=
  if migrations.length > 0 then
    match addSplitConfigurationMigrationIfAvailable «from» packageUpdates with
    | .error e => .error e
    | .ok split => .ok (some (split ++ migrations))
  else .ok none

/-! ## Installed-version resolver (`createInstalledPackageVersionsResolver`) -/

/-- The resolver closed over the workspace root: overrides win when truthy,
then the on-disk manifest (`disk`, `none` = module resolution threw), and a
failed lookup of `nx` retries as `@nrwl/workspace`. -/
def createInstalledPackageVersionsResolver (disk : String → Option String)
    (packageName : String) (overrides : Option VMap) : Option String :=
  let resolveOnce := fun (p : String) =>
    let ov := overrides.bind fun o => alookup o p
    if strTruthy ov then ov else disk p
  match resolveOnce packageName with
  | some v => some v
  | none => if packageName == "nx" then resolveOnce "@nrwl/workspace" else none

/-! ## Concrete workspaces used to instantiate the theorems -/

/-- Scenario workspace: `pkg` installed at `1.0.0`, document migrating it to
`2.0.0` with three migration scripts. -/
def w1Config : MigrationConfig :=
  { version := "2.0.0",
    packageJsonUpdates :=
      some [("a", { version := "2.0.0", packages := some [("pkg", { version := "2.0.0" })] })],
    generators :=
      some [("m1", { version := some "1.5.0" }),
            ("m2", { version := some "2.0.0" }),
            ("m3", { version := some "2.1.0" })] }

def w1Migrator : Migrator :=
  { packageJson := { dependencies := some [("pkg", "1.0.0")] },
    getInstalledPackageVersion :=
      createInstalledPackageVersionsResolver fun p => if p == "pkg" then some "1.0.0" else none,
    fetch := fun p _ => if p == "pkg" then .ok w1Config else .error "No matching version",
    «to» := [],
    satisfiesFn := fun _ _ => true,
    cleanSemverFn := fun v => some v }

def w1State : MigState :=
  { packageUpdates := [("pkg", { version := "2.0.0" })],
    collectedVersions := [("pkg", "2.0.0")] }

/-- Workspace with nothing installed, used for the not-installed branch. -/
def w2Migrator : Migrator :=
  { packageJson := {},
    getInstalledPackageVersion := createInstalledPackageVersionsResolver fun _ => none,
    fetch := fun _ _ => .error "unreachable",
    «to» := [("newpkg", "9.9.9")],
    satisfiesFn := fun _ _ => true,
    cleanSemverFn := fun v => some v }

def w2State : MigState :=
  { packageUpdates := [("other", { version := "1.0.0" })] }

/-- Workspace for the fixed-point check: `pkg` installed at `1.0.0` and
already collected at `2.0.0`. -/
def w3Migrator : Migrator :=
  { packageJson := { dependencies := some [("pkg", "1.0.0")] },
    getInstalledPackageVersion :=
      createInstalledPackageVersionsResolver fun p => if p == "pkg" then some "1.0.0" else none,
    fetch := fun _ _ => .ok { version := "2.0.0" },
    «to» := [],
    satisfiesFn := fun _ _ => true,
    cleanSemverFn := fun v => some v }

def w3State : MigState :=
  { collectedVersions := [("pkg", "2.0.0")] }

/-- Candidate updates for the filter: one already passed, one beyond the
target, one in the window. -/
def w4Updates : List PackageJsonUpdate :=
  [{ version := "0.5.0", packages := some [("peer", { version := "0.5.0" })] },
   { version := "2.5.0", packages := some [("peer", { version := "2.5.0" })] },
   { version := "2.0.0", packages := some [("peer", { version := "2.0.0" })] },
   { version := "2.0.0" }]

def w4Migrator : Migrator :=
  { packageJson := { dependencies := some [("pkg", "1.0.0"), ("peer", "1.0.0")] },
    getInstalledPackageVersion :=
      createInstalledPackageVersionsResolver fun p =>
        if p == "pkg" then some "1.0.0" else if p == "peer" then some "1.0.0" else none,
    fetch := fun _ _ => .error "unused",
    «to» := [],
    satisfiesFn := fun _ _ => true,
    cleanSemverFn := fun v => some v }

/-- Migrator with `excludeAppliedMigrations` set: `pkg` installed at `1.0.0`
and planned to `2.0.0`. -/
def c6Migrator : Migrator :=
  { packageJson := { dependencies := some [("pkg", "1.0.0")] },
    getInstalledPackageVersion :=
      createInstalledPackageVersionsResolver fun p => if p == "pkg" then some "1.0.0" else none,
    fetch := fun _ _ => .error "unused",
    «to» := [],
    excludeAppliedMigrations := true,
    satisfiesFn := fun _ _ => true,
    cleanSemverFn := fun v => some v }

def c6State : MigState :=
  { packageUpdates := [("pkg", { version := "2.0.0" })] }

/-- A migration beyond the planned version: the gate rejects it although the
claim's formula accepts it. -/
def c6Migration : MigrationsJsonEntry := { version := some "3.0.0" }

/-- A migration inside the version window. -/
def c6MigrationInWindow : MigrationsJsonEntry := { version := some "2.0.0" }

/-- A planner-emitted migration used as the tail of the migrations file. -/
def w8Migration : OutputMigration :=
  { version := some "15.8.0", package := "@nrwl/workspace", name := "some-migration" }

def w8PackageUpdates : List (String × PackageUpdateData) :=
  [("@nrwl/workspace", { version := "15.8.0" })]

/-! # Theorems -/

/-! ## Ordering facts about the semver comparator -/

theorem othenEq (o : Ordering) : Ordering.eq.then o = o := rfl

theorem othenLt (o : Ordering) : Ordering.lt.then o = .lt := rfl

theorem othenGt (o : Ordering) : Ordering.gt.then o = .gt := rfl

theorem othen_swap (o₁ o₂ : Ordering) : (o₁.then o₂).swap = o₁.swap.then o₂.swap := by
  cases o₁ <;> rfl

theorem othen_eq_iff (o₁ o₂ : Ordering) : o₁.then o₂ = .eq ↔ o₁ = .eq ∧ o₂ = .eq := by
  cases o₁ <;> simp [othenEq, othenLt, othenGt]

theorem othen_lt_iff (o₁ o₂ : Ordering) :
    o₁.then o₂ = .lt ↔ o₁ = .lt ∨ (o₁ = .eq ∧ o₂ = .lt) := by
  cases o₁ <;> simp [othenEq, othenLt, othenGt]

theorem cmpN_refl (a : Nat) : cmpN a a = .eq := by
  unfold cmpN; simp

theorem cmpN_eq_iff {a b : Nat} : cmpN a b = .eq ↔ a = b := by
  unfold cmpN
  by_cases h1 : a < b
  · simp [h1]; omega
  · by_cases h2 : b < a
    · simp [h1, h2]; omega
    · simp [h1, h2]; omega

theorem cmpN_lt_iff {a b : Nat} : cmpN a b = .lt ↔ a < b := by
  unfold cmpN
  by_cases h1 : a < b
  · simp [h1]
  · by_cases h2 : b < a <;> simp [h1, h2]

theorem cmpN_swap (a b : Nat) : (cmpN a b).swap = cmpN b a := by
  unfold cmpN
  by_cases h1 : a < b <;> by_cases h2 : b < a <;>
    simp [h1, h2, Ordering.swap] <;> omega

theorem cmpN_lt_trans {a b c : Nat} (h1 : cmpN a b = .lt) (h2 : cmpN b c = .lt) :
    cmpN a c = .lt := by
  rw [cmpN_lt_iff] at h1 h2 ⊢; omega

theorem cmpChars_refl (a : List Char) : cmpChars a a = .eq := by
  induction a with
  | nil => rfl
  | cons x xs ih => simp [cmpChars, cmpN_refl, othenEq, ih]

theorem cmpChars_swap (a b : List Char) : (cmpChars a b).swap = cmpChars b a := by
  induction a generalizing b with
  | nil => cases b <;> rfl
  | cons x xs ih =>
    cases b with
    | nil => rfl
    | cons y ys =>
      simp only [cmpChars, othen_swap, cmpN_swap, ih]

theorem cmpChars_eq_left {a b : List Char} (h : cmpChars a b = .eq) :
    ∀ c, cmpChars a c = cmpChars b c := by
  induction a generalizing b with
  | nil =>
    cases b with
    | nil => intro c; rfl
    | cons y ys => simp [cmpChars] at h
  | cons x xs ih =>
    cases b with
    | nil => simp [cmpChars] at h
    | cons y ys =>
      rw [cmpChars, othen_eq_iff] at h
      intro c
      cases c with
      | nil => rfl
      | cons z zs =>
        simp only [cmpChars, cmpN_eq_iff.1 h.1, ih h.2]

theorem cmpChars_lt_trans {a : List Char} :
    ∀ {b c : List Char}, cmpChars a b = .lt → cmpChars b c = .lt → cmpChars a c = .lt := by
  induction a with
  | nil =>
    intro b c h1 h2
    cases b with
    | nil => simp [cmpChars] at h1
    | cons y ys =>
      cases c with
      | nil => simp [cmpChars] at h2
      | cons z zs => simp [cmpChars]
  | cons x xs ih =>
    intro b c h1 h2
    cases b with
    | nil => simp [cmpChars] at h1
    | cons y ys =>
      cases c with
      | nil => simp [cmpChars] at h2
      | cons z zs =>
        rw [cmpChars, othen_lt_iff] at h1 h2 ⊢
        rcases h1 with h1 | ⟨h1e, h1r⟩
        · rcases h2 with h2 | ⟨h2e, h2r⟩
          · exact Or.inl (cmpN_lt_trans h1 h2)
          · exact Or.inl (by rw [← cmpN_eq_iff.1 h2e]; exact h1)
        · rcases h2 with h2 | ⟨h2e, h2r⟩
          · exact Or.inl (by rw [cmpN_eq_iff.1 h1e]; exact h2)
          · exact Or.inr ⟨by rw [cmpN_eq_iff.1 h1e, cmpN_eq_iff.1 h2e, cmpN_refl], ih h1r h2r⟩

theorem cmpId_refl (a : PreId) : cmpId a a = .eq := by
  cases a with
  | num n => simp [cmpId, cmpN_refl]
  | str s => simp [cmpId, cmpChars_refl]

theorem cmpId_swap (a b : PreId) : (cmpId a b).swap = cmpId b a := by
  cases a <;> cases b
  · simp only [cmpId, cmpN_swap]
  · rfl
  · rfl
  · simp only [cmpId, cmpChars_swap]

theorem cmpId_eq_left {a b : PreId} (h : cmpId a b = .eq) :
    ∀ c, cmpId a c = cmpId b c := by
  cases a with
  | num n =>
    cases b with
    | num m =>
      simp only [cmpId] at h
      intro c; rw [cmpN_eq_iff.1 h]
    | str t => simp [cmpId] at h
  | str s =>
    cases b with
    | num m => simp [cmpId] at h
    | str t =>
      simp only [cmpId] at h
      intro c
      cases c with
      | num k => rfl
      | str u => simp only [cmpId, cmpChars_eq_left h]

theorem cmpId_lt_trans {a b c : PreId} (h1 : cmpId a b = .lt) (h2 : cmpId b c = .lt) :
    cmpId a c = .lt := by
  cases a <;> cases b <;> cases c <;> simp_all [cmpId]
  · exact cmpN_lt_trans h1 h2
  · exact cmpChars_lt_trans h1 h2

theorem cmpPreRest_refl (a : List PreId) : cmpPreRest a a = .eq := by
  induction a with
  | nil => rfl
  | cons x xs ih => simp [cmpPreRest, cmpId_refl, othenEq, ih]

theorem cmpPreRest_swap (a b : List PreId) : (cmpPreRest a b).swap = cmpPreRest b a := by
  induction a generalizing b with
  | nil => cases b <;> rfl
  | cons x xs ih =>
    cases b with
    | nil => rfl
    | cons y ys => simp only [cmpPreRest, othen_swap, cmpId_swap, ih]

theorem cmpPreRest_eq_left {a b : List PreId} (h : cmpPreRest a b = .eq) :
    ∀ c, cmpPreRest a c = cmpPreRest b c := by
  induction a generalizing b with
  | nil =>
    cases b with
    | nil => intro c; rfl
    | cons y ys => simp [cmpPreRest] at h
  | cons x xs ih =>
    cases b with
    | nil => simp [cmpPreRest] at h
    | cons y ys =>
      rw [cmpPreRest, othen_eq_iff] at h
      intro c
      cases c with
      | nil => rfl
      | cons z zs => simp only [cmpPreRest, cmpId_eq_left h.1, ih h.2]

theorem cmpId_eq_right {a b : PreId} (h : cmpId a b = .eq) (c : PreId) :
    cmpId c a = cmpId c b := by
  have hba : cmpId b a = .eq := by
    rw [← cmpId_swap a b, h]; rfl
  rw [← cmpId_swap a c, ← cmpId_swap b c, cmpId_eq_left hba]

theorem cmpPreRest_eq_right {a b : List PreId} (h : cmpPreRest a b = .eq)
    (c : List PreId) : cmpPreRest c a = cmpPreRest c b := by
  have hba : cmpPreRest b a = .eq := by
    rw [← cmpPreRest_swap a b, h]; rfl
  rw [← cmpPreRest_swap a c, ← cmpPreRest_swap b c, cmpPreRest_eq_left hba]

theorem cmpPreRest_lt_trans {a : List PreId} :
    ∀ {b c : List PreId}, cmpPreRest a b = .lt → cmpPreRest b c = .lt →
      cmpPreRest a c = .lt := by
  induction a with
  | nil =>
    intro b c h1 h2
    cases b with
    | nil => simp [cmpPreRest] at h1
    | cons y ys =>
      cases c with
      | nil => simp [cmpPreRest] at h2
      | cons z zs => simp [cmpPreRest]
  | cons x xs ih =>
    intro b c h1 h2
    cases b with
    | nil => simp [cmpPreRest] at h1
    | cons y ys =>
      cases c with
      | nil => simp [cmpPreRest] at h2
      | cons z zs =>
        rw [cmpPreRest, othen_lt_iff] at h1 h2 ⊢
        rcases h1 with h1 | ⟨h1e, h1r⟩
        · rcases h2 with h2 | ⟨h2e, h2r⟩
          · exact Or.inl (cmpId_lt_trans h1 h2)
          · exact Or.inl (by rw [← cmpId_eq_right h2e x]; exact h1)
        · rcases h2 with h2 | ⟨h2e, h2r⟩
          · exact Or.inl (by rw [cmpId_eq_left h1e]; exact h2)
          · refine Or.inr ⟨?_, ih h1r h2r⟩
            rw [cmpId_eq_left h1e, ← cmpId_eq_right h2e y, cmpId_refl]

theorem cmpPre_refl (a : List PreId) : cmpPre a a = .eq := by
  cases a with
  | nil => rfl
  | cons x xs => simp [cmpPre, cmpId_refl, othenEq, cmpPreRest_refl]

theorem cmpPre_of_ne {a b : List PreId} (ha : a ≠ []) (hb : b ≠ []) :
    cmpPre a b = cmpPreRest a b := by
  cases a with
  | nil => exact absurd rfl ha
  | cons x xs =>
    cases b with
    | nil => exact absurd rfl hb
    | cons y ys => rfl

theorem cmpPre_swap (a b : List PreId) : (cmpPre a b).swap = cmpPre b a := by
  cases a with
  | nil => cases b <;> rfl
  | cons x xs =>
    cases b with
    | nil => rfl
    | cons y ys =>
      simp only [cmpPre, othen_swap, cmpId_swap, cmpPreRest_swap]

theorem cmpPreRest_ne_nil_of_eq {a b : List PreId} (h : cmpPreRest a b = .eq)
    (ha : a ≠ []) : b ≠ [] := by
  cases a with
  | nil => exact absurd rfl ha
  | cons x xs =>
    cases b with
    | nil => simp [cmpPreRest] at h
    | cons y ys => simp

theorem cmpPre_eq_left {a b : List PreId} (h : cmpPre a b = .eq) :
    ∀ c, cmpPre a c = cmpPre b c := by
  cases a with
  | nil =>
    cases b with
    | nil => intro c; rfl
    | cons y ys => simp [cmpPre] at h
  | cons x xs =>
    cases b with
    | nil => simp [cmpPre] at h
    | cons y ys =>
      intro c
      cases c with
      | nil => rfl
      | cons z zs =>
        have h' : cmpPreRest (x :: xs) (y :: ys) = .eq := h
        simp only [cmpPre]
        have := cmpPreRest_eq_left h' (z :: zs)
        simpa [cmpPreRest] using this

theorem cmpPre_lt_trans {a b c : List PreId} (h1 : cmpPre a b = .lt)
    (h2 : cmpPre b c = .lt) : cmpPre a c = .lt := by
  cases b with
  | nil => cases c <;> simp [cmpPre] at h2
  | cons y ys =>
    cases a with
    | nil => simp [cmpPre] at h1
    | cons x xs =>
      cases c with
      | nil => rfl
      | cons z zs =>
        have h1' : cmpPreRest (x :: xs) (y :: ys) = .lt := h1
        have h2' : cmpPreRest (y :: ys) (z :: zs) = .lt := h2
        have := cmpPreRest_lt_trans h1' h2'
        simpa [cmpPre, cmpPreRest] using this

theorem semverCompare_refl (a : Semver) : semverCompare a a = .eq := by
  simp [semverCompare, cmpN_refl, othenEq, cmpPre_refl]

theorem semverCompare_swap (a b : Semver) :
    (semverCompare a b).swap = semverCompare b a := by
  simp only [semverCompare, othen_swap, cmpN_swap, cmpPre_swap]

theorem semverCompare_eq_left {a b : Semver} (h : semverCompare a b = .eq) :
    ∀ c, semverCompare a c = semverCompare b c := by
  intro c
  rw [semverCompare, othen_eq_iff, othen_eq_iff, othen_eq_iff] at h
  obtain ⟨h1, h2, h3, h4⟩ := h
  simp only [semverCompare, cmpN_eq_iff.1 h1, cmpN_eq_iff.1 h2, cmpN_eq_iff.1 h3,
    cmpPre_eq_left h4]

theorem semverCompare_eq_right {a b : Semver} (h : semverCompare a b = .eq)
    (c : Semver) : semverCompare c a = semverCompare c b := by
  have hba : semverCompare b a = .eq := by
    rw [← semverCompare_swap a b, h]; rfl
  rw [← semverCompare_swap a c, ← semverCompare_swap b c, semverCompare_eq_left hba]

theorem semverCompare_lt_trans {a b c : Semver} (h1 : semverCompare a b = .lt)
    (h2 : semverCompare b c = .lt) : semverCompare a c = .lt := by
  rw [semverCompare, othen_lt_iff] at h1 h2
  rw [semverCompare, othen_lt_iff]
  rcases h1 with h1 | ⟨h1e, h1r⟩
  · rcases h2 with h2 | ⟨h2e, h2r⟩
    · exact Or.inl (cmpN_lt_trans h1 h2)
    · exact Or.inl (by rw [← cmpN_eq_iff.1 h2e]; exact h1)
  · rcases h2 with h2 | ⟨h2e, h2r⟩
    · exact Or.inl (by rw [cmpN_eq_iff.1 h1e]; exact h2)
    · refine Or.inr ⟨by rw [cmpN_eq_iff.1 h1e, cmpN_eq_iff.1 h2e, cmpN_refl], ?_⟩
      rw [othen_lt_iff] at h1r h2r
      rw [othen_lt_iff]
      rcases h1r with h1r | ⟨h1re, h1rr⟩
      · rcases h2r with h2r | ⟨h2re, h2rr⟩
        · exact Or.inl (cmpN_lt_trans h1r h2r)
        · exact Or.inl (by rw [← cmpN_eq_iff.1 h2re]; exact h1r)
      · rcases h2r with h2r | ⟨h2re, h2rr⟩
        · exact Or.inl (by rw [cmpN_eq_iff.1 h1re]; exact h2r)
        · refine Or.inr ⟨by rw [cmpN_eq_iff.1 h1re, cmpN_eq_iff.1 h2re, cmpN_refl], ?_⟩
          rw [othen_lt_iff] at h1rr h2rr
          rw [othen_lt_iff]
          rcases h1rr with h1rr | ⟨h1rre, h1rrr⟩
          · rcases h2rr with h2rr | ⟨h2rre, h2rrr⟩
            · exact Or.inl (cmpN_lt_trans h1rr h2rr)
            · exact Or.inl (by rw [← cmpN_eq_iff.1 h2rre]; exact h1rr)
          · rcases h2rr with h2rr | ⟨h2rre, h2rrr⟩
            · exact Or.inl (by rw [cmpN_eq_iff.1 h1rre]; exact h2rr)
            · refine Or.inr ⟨by rw [cmpN_eq_iff.1 h1rre, cmpN_eq_iff.1 h2rre, cmpN_refl], ?_⟩
              exact cmpPre_lt_trans h1rrr h2rrr

theorem obeq_true_iff {o₁ o₂ : Ordering} : (o₁ == o₂) = true ↔ o₁ = o₂ := by
  cases o₁ <;> cases o₂ <;> decide

theorem obne_true_iff {o₁ o₂ : Ordering} : (o₁ != o₂) = true ↔ o₁ ≠ o₂ := by
  cases o₁ <;> cases o₂ <;> decide

/-! ## Validity of `normalizeVersion` output -/

theorem firstValidVariation_gt :
    ∀ {l : List String} {v : String}, firstValidVariation l = some v →
      semverGt v "0.0.0" = some true := by
  intro l
  induction l with
  | nil => intro v h; simp [firstValidVariation] at h
  | cons x xs ih =>
    intro v h
    rw [firstValidVariation] at h
    by_cases hx : semverGt x "0.0.0" == some true
    · rw [if_pos hx] at h
      cases h
      exact beq_iff_eq.1 hx
    · rw [if_neg hx] at h
      exact ih h

theorem semverGt_some_left {a b : String} {v : Bool} (h : semverGt a b = some v) :
    ∃ x, semverParse a = some x := by
  unfold semverGt at h
  cases hp : semverParse a with
  | none => rw [hp] at h; exact absurd h (by simp)
  | some x => exact ⟨x, rfl⟩

/-- The output of `normalizeVersion` is always a valid semver, so the
`Migrator`'s comparisons never throw. -/
theorem normalizeVersion_parses (v : String) :
    ∃ x, semverParse (normalizeVersion v) = some x := by
  unfold normalizeVersion
  cases h : firstValidVariation (normalizeVariations v) with
  | none => exact ⟨⟨0, 0, 0, []⟩, by decide⟩
  | some w =>
    simp only [Option.getD]
    exact semverGt_some_left (firstValidVariation_gt h)

theorem migratorGt_eq_compare {a b : String} {x y : Semver}
    (hx : semverParse (normalizeVersion a) = some x)
    (hy : semverParse (normalizeVersion b) = some y) :
    migratorGt a b = (semverCompare x y == .gt) := by
  unfold migratorGt semverGt
  rw [hx, hy]
  rfl

theorem migratorLte_eq_compare {a b : String} {x y : Semver}
    (hx : semverParse (normalizeVersion a) = some x)
    (hy : semverParse (normalizeVersion b) = some y) :
    migratorLte a b = (semverCompare x y != .gt) := by
  unfold migratorLte semverLte
  rw [hx, hy]
  rfl

theorem migratorLte_refl (v : String) : migratorLte v v = true := by
  obtain ⟨x, hx⟩ := normalizeVersion_parses v
  rw [migratorLte_eq_compare hx hx, obne_true_iff, semverCompare_refl]
  simp

theorem migratorGt_to_lte {a b : String} (h : migratorGt a b = true) :
    migratorLte b a = true := by
  obtain ⟨x, hx⟩ := normalizeVersion_parses a
  obtain ⟨y, hy⟩ := normalizeVersion_parses b
  rw [migratorGt_eq_compare hx hy, obeq_true_iff] at h
  rw [migratorLte_eq_compare hy hx, obne_true_iff]
  have : (semverCompare x y).swap = semverCompare y x := semverCompare_swap x y
  rw [h] at this
  rw [← this]
  decide

theorem migratorLte_trans {a b c : String} (h1 : migratorLte a b = true)
    (h2 : migratorLte b c = true) : migratorLte a c = true := by
  obtain ⟨x, hx⟩ := normalizeVersion_parses a
  obtain ⟨y, hy⟩ := normalizeVersion_parses b
  obtain ⟨z, hz⟩ := normalizeVersion_parses c
  rw [migratorLte_eq_compare hx hy, obne_true_iff] at h1
  rw [migratorLte_eq_compare hy hz, obne_true_iff] at h2
  rw [migratorLte_eq_compare hx hz, obne_true_iff]
  cases hxy : semverCompare x y with
  | gt => exact absurd hxy h1
  | lt =>
    cases hyz : semverCompare y z with
    | gt => exact absurd hyz h2
    | lt => rw [semverCompare_lt_trans hxy hyz]; decide
    | eq => rw [← semverCompare_eq_right hyz x, hxy]; decide
  | eq =>
    cases hyz : semverCompare y z with
    | gt => exact absurd hyz h2
    | lt => rw [semverCompare_eq_left hxy, hyz]; decide
    | eq => rw [semverCompare_eq_left hxy, hyz]; decide

/-! ## C7: `normalizeVersion` edge cases -/

theorem firstValidVariation_mem :
    ∀ {l : List String} {v : String}, firstValidVariation l = some v → v ∈ l := by
  intro l
  induction l with
  | nil => intro v h; simp [firstValidVariation] at h
  | cons x xs ih =>
    intro v h
    rw [firstValidVariation] at h
    by_cases hx : semverGt x "0.0.0" == some true
    · rw [if_pos hx] at h; cases h; exact List.mem_cons_self x xs
    · rw [if_neg hx] at h; exact List.mem_cons_of_mem x (ih h)

theorem firstValidVariation_none :
    ∀ {l : List String}, firstValidVariation l = none →
      ∀ x ∈ l, semverGt x "0.0.0" ≠ some true := by
  intro l
  induction l with
  | nil => intro _ x hx; simp at hx
  | cons y ys ih =>
    intro h x hx
    rw [firstValidVariation] at h
    by_cases hy : semverGt y "0.0.0" == some true
    · rw [if_pos hy] at h; exact absurd h (by simp)
    · rw [if_neg hy] at h
      rcases List.mem_cons.1 hx with rfl | hx'
      · intro hc; exact hy (by rw [hc]; rfl)
      · exact ih h x hx'

/-- C7 counterexample: the claim says `normalizeVersion` returns `"0.0.0"` for
a single-integer version such as `"14"` and for a `v`-prefixed version such as
`"v14.0.0"`; the code instead pads the former to `"14.0.0"` and returns the
latter unchanged (npm semver accepts a leading `v`). -/
theorem normalizeVersion_counterexample :
    normalizeVersion "14" = "14.0.0" ∧ normalizeVersion "14" ≠ "0.0.0" ∧
    normalizeVersion "v14.0.0" = "v14.0.0" ∧ normalizeVersion "v14.0.0" ≠ "0.0.0" := by
  refine ⟨by decide, by decide, by decide, by decide⟩

/-- C7 (amended): `normalizeVersion` returns `"0.0.0"` (rather than throwing)
for the empty string and for prerelease-only strings; a single-integer version
is zero-padded (`"14"` ↦ `"14.0.0"`) and a `v`-prefixed semver is returned
unchanged; in general the normalised variations are tried in order against
the predicate `> 0.0.0`, the first success is returned, and `"0.0.0"` results
when all fail. -/
theorem normalizeVersion_spec :
    normalizeVersion "" = "0.0.0" ∧
    normalizeVersion "-beta.1" = "0.0.0" ∧
    normalizeVersion "beta" = "0.0.0" ∧
    normalizeVersion "14" = "14.0.0" ∧
    normalizeVersion "v14.0.0" = "v14.0.0" ∧
    ∀ v : String,
      (semverGt (normalizeVersion v) "0.0.0" = some true ∧
        normalizeVersion v ∈ normalizeVariations v) ∨
      (normalizeVersion v = "0.0.0" ∧
        ∀ x ∈ normalizeVariations v, semverGt x "0.0.0" ≠ some true) := by
  refine ⟨by decide, by decide, by decide, by decide, by decide, ?_⟩
  intro v
  unfold normalizeVersion
  cases h : firstValidVariation (normalizeVariations v) with
  | none =>
    exact Or.inr ⟨rfl, firstValidVariation_none h⟩
  | some w =>
    exact Or.inl ⟨firstValidVariation_gt h, firstValidVariation_mem h⟩

/-! ## C9: `parseTargetPackageAndVersion` on a bare version literal -/

/-- C9: an argument without `@` that is `latest`/`next` parses to target
package `nx` with the tag passed through; a bare (full or shortened) version
literal parses to `@nrwl/workspace` when its normalisation is below
`14.0.0-beta.0` and to `nx` otherwise, with the normalised version as target. -/
theorem parseTargetPackageAndVersion_bareVersion (args : String)
    (hno : args.data.contains '@' = false) (hne : args ≠ "") :
    (args = "latest" ∨ args = "next" →
      parseTargetPackageAndVersion args = some ("nx", args)) ∧
    (args ≠ "latest" → args ≠ "next" →
      ((semverParse args).isSome = true ∨ matchesBareVersionShape args = true) →
      parseTargetPackageAndVersion args =
        some
          (if semverLt (normalizeVersion args) "14.0.0-beta.0" = some true then
            "@nrwl/workspace"
          else "nx", normalizeVersion args)) := by
  have hne' : (args == "") = false := by
    simp only [beq_eq_false_iff_ne, ne_eq]; exact hne
  constructor
  · rintro (rfl | rfl) <;>
      simp [parseTargetPackageAndVersion, hno, normalizeVersionWithTagCheck]
  · intro h1 h2 h3
    have h1' : (args == "latest") = false := by
      simp only [beq_eq_false_iff_ne, ne_eq]; exact h1
    have h2' : (args == "next") = false := by
      simp only [beq_eq_false_iff_ne, ne_eq]; exact h2
    have hcond :
        (args == "latest" || args == "next" || (semverParse args).isSome ||
          matchesBareVersionShape args) = true := by
      rcases h3 with h3 | h3 <;> simp [h3]
    have htag : normalizeVersionWithTagCheck args = normalizeVersion args := by
      unfold normalizeVersionWithTagCheck
      rw [h1', h2']
      simp
    rw [parseTargetPackageAndVersion]
    rw [if_neg (by rw [hne']; simp), if_neg (by rw [hno]; simp)]
    rw [if_pos hcond]
    obtain ⟨x, hx⟩ := normalizeVersion_parses args
    have hbeta : semverParse "14.0.0-beta.0" = some ⟨14, 0, 0, [.str "beta", .num 0]⟩ := by
      decide
    have hlt :
        semverLt (normalizeVersion args) "14.0.0-beta.0" =
          some (semverCompare x ⟨14, 0, 0, [.str "beta", .num 0]⟩ == .lt) := by
      unfold semverLt
      rw [hx, hbeta]
    rw [htag, hlt]
    by_cases hb : (semverCompare x ⟨14, 0, 0, [.str "beta", .num 0]⟩ == .lt) = true
    · rw [hb]
      rw [if_pos rfl]
      simp [h1', h2', hlt, hb]
    · rw [Bool.not_eq_true] at hb
      rw [hb]
      rw [if_neg (by simp)]
      simp [h1', h2', hlt, hb]

/-- C9 witness: `"13"` normalises below the threshold and selects
`@nrwl/workspace`. -/
theorem parseTargetPackageAndVersion_bareVersion_witness :
    parseTargetPackageAndVersion "13" = some ("@nrwl/workspace", "13.0.0") := by
  have h :=
    (parseTargetPackageAndVersion_bareVersion "13" (by decide) (by decide)).2
      (by decide) (by decide) (Or.inr (by decide))
  rw [h, if_pos (by decide)]
  decide

/-! ## C2: monotonicity of `packageUpdates` -/

theorem alookup_setKey_self {α : Type} (l : List (String × α)) (k : String) (v : α) :
    alookup (setKey l k v) k = some v := by
  induction l with
  | nil => simp [setKey, alookup]
  | cons p rest ih =>
    obtain ⟨k', v'⟩ := p
    simp only [setKey]
    by_cases h : (k' == k) = true
    · rw [if_pos h]; simp [alookup]
    · rw [if_neg h]
      simp only [alookup]
      rw [if_neg h]
      exact ih

theorem alookup_setKey_ne {α : Type} (l : List (String × α)) (k q : String) (v : α)
    (h : (k == q) = false) : alookup (setKey l k v) q = alookup l q := by
  induction l with
  | nil => simp [setKey, alookup, h]
  | cons p rest ih =>
    obtain ⟨k', v'⟩ := p
    simp only [setKey]
    by_cases hk : (k' == k) = true
    · rw [if_pos hk]
      simp only [alookup, h]
      have : (k' == q) = false := by
        rw [beq_iff_eq] at hk
        subst hk
        exact h
      rw [this]
      simp
    · rw [if_neg hk]
      simp only [alookup]
      by_cases hq : (k' == q) = true
      · rw [hq]; simp
      · rw [Bool.not_eq_true] at hq
        rw [hq]
        simpa using ih

theorem migratorGt_trans {a b c : String} (h1 : migratorGt a b = true)
    (h2 : migratorGt b c = true) : migratorGt a c = true := by
  obtain ⟨x, hx⟩ := normalizeVersion_parses a
  obtain ⟨y, hy⟩ := normalizeVersion_parses b
  obtain ⟨z, hz⟩ := normalizeVersion_parses c
  rw [migratorGt_eq_compare hx hy, obeq_true_iff] at h1
  rw [migratorGt_eq_compare hy hz, obeq_true_iff] at h2
  rw [migratorGt_eq_compare hx hz, obeq_true_iff]
  have h1' : semverCompare y x = .lt := by
    rw [← semverCompare_swap x y, h1]; rfl
  have h2' : semverCompare z y = .lt := by
    rw [← semverCompare_swap y z, h2]; rfl
  have hlt := semverCompare_lt_trans h2' h1'
  have hsw := semverCompare_swap z x
  rw [← hsw, hlt]
  rfl

/-- One `addPackageUpdate` step: an existing entry is replaced only by a
strictly greater version, so the stored version cannot decrease. -/
theorem addPackageUpdate_mono {l : List (String × PackageUpdateData)} {q : String}
    {old : PackageUpdateData} (h : alookup l q = some old) (n : String)
    (r : PackageUpdateData) :
    ∃ new, alookup (addPackageUpdate l n r) q = some new ∧
      (new = old ∨ migratorGt new.version old.version = true) ∧
      migratorLte old.version new.version = true := by
  unfold addPackageUpdate
  by_cases hq : (n == q) = true
  · rw [beq_iff_eq] at hq
    subst hq
    rw [h]
    dsimp only
    by_cases hgt : migratorGt r.version old.version = true
    · rw [if_pos hgt]
      exact ⟨r, alookup_setKey_self l n r, Or.inr hgt, migratorGt_to_lte hgt⟩
    · rw [Bool.not_eq_true] at hgt
      rw [hgt]
      simp only [Bool.false_eq_true, if_false]
      exact ⟨old, h, Or.inl rfl, migratorLte_refl _⟩
  · rw [Bool.not_eq_true] at hq
    cases hn : alookup l n with
    | none =>
      refine ⟨old, ?_, Or.inl rfl, migratorLte_refl _⟩
      rw [alookup_setKey_ne l n q r hq]
      exact h
    | some o =>
      dsimp only
      by_cases hgt : migratorGt r.version o.version = true
      · rw [if_pos hgt]
        refine ⟨old, ?_, Or.inl rfl, migratorLte_refl _⟩
        rw [alookup_setKey_ne l n q r hq]
        exact h
      · rw [Bool.not_eq_true] at hgt
        rw [hgt]
        simp only [Bool.false_eq_true, if_false]
        exact ⟨old, h, Or.inl rfl, migratorLte_refl _⟩

theorem monoStep_trans {old mid new : PackageUpdateData}
    (h1 : (mid = old ∨ migratorGt mid.version old.version = true) ∧
      migratorLte old.version mid.version = true)
    (h2 : (new = mid ∨ migratorGt new.version mid.version = true) ∧
      migratorLte mid.version new.version = true) :
    (new = old ∨ migratorGt new.version old.version = true) ∧
      migratorLte old.version new.version = true := by
  obtain ⟨h1d, h1l⟩ := h1
  obtain ⟨h2d, h2l⟩ := h2
  refine ⟨?_, migratorLte_trans h1l h2l⟩
  rcases h1d with rfl | h1g
  · exact h2d
  · rcases h2d with rfl | h2g
    · exact Or.inr h1g
    · exact Or.inr (migratorGt_trans h2g h1g)

theorem populateChildren_mono
    (rec : MigState → String → PackageUpdateData →
      Except String (List DeferredPackageUpdate × MigState))
    (hrec : ∀ s p t r s', rec s p t = .ok (r, s') →
      ∀ q old, alookup s.packageUpdates q = some old →
        ∃ new, alookup s'.packageUpdates q = some new ∧
          (new = old ∨ migratorGt new.version old.version = true) ∧
          migratorLte old.version new.version = true) :
    ∀ (l : List (String × PackageUpdateData)) (s : MigState) res s',
      populateChildren rec l s = .ok (res, s') →
      ∀ q old, alookup s.packageUpdates q = some old →
        ∃ new, alookup s'.packageUpdates q = some new ∧
          (new = old ∨ migratorGt new.version old.version = true) ∧
          migratorLte old.version new.version = true := by
  intro l
  induction l with
  | nil =>
    intro s res s' h q old hq
    rw [populateChildren] at h
    cases h
    exact ⟨old, hq, Or.inl rfl, migratorLte_refl _⟩
  | cons c rest ih =>
    intro s res s' h q old hq
    obtain ⟨name, pu⟩ := c
    rw [populateChildren] at h
    cases h1 : rec s name pu with
    | error e => rw [h1] at h; cases h
    | ok v =>
      obtain ⟨r, s₁⟩ := v
      rw [h1] at h
      dsimp only at h
      cases h2 : populateChildren rec rest s₁ with
      | error e => rw [h2] at h; cases h
      | ok w =>
        obtain ⟨rs, s₂⟩ := w
        rw [h2] at h
        dsimp only at h
        cases h
        obtain ⟨mid, hmid, hstep1⟩ := hrec s name pu r s₁ h1 q old hq
        obtain ⟨new, hnew, hstep2⟩ := ih s₁ rs _ h2 q mid hmid
        exact ⟨new, hnew, monoStep_trans hstep1 hstep2⟩

theorem populateRest_mono (M : Migrator)
    (rec : MigState → String → PackageUpdateData →
      Except String (List DeferredPackageUpdate × MigState))
    (hrec : ∀ s p t r s', rec s p t = .ok (r, s') →
      ∀ q old, alookup s.packageUpdates q = some old →
        ∃ new, alookup s'.packageUpdates q = some new ∧
          (new = old ∨ migratorGt new.version old.version = true) ∧
          migratorLte old.version new.version = true)
    (s : MigState) (p : String) (t : PackageUpdateData) (config : MigrationConfig)
    (r : List DeferredPackageUpdate) (s' : MigState)
    (h : M.populateRest rec s p t config = .ok (r, s')) :
    ∀ q old, alookup s.packageUpdates q = some old →
      ∃ new, alookup s'.packageUpdates q = some new ∧
        (new = old ∨ migratorGt new.version old.version = true) ∧
        migratorLte old.version new.version = true := by
  intro q old hq
  rw [Migrator.populateRest] at h
  dsimp only at h
  split at h
  · cases h
  · rename_i updates order rest2 overrides heq
    split at h
    · cases h
      exact addPackageUpdate_mono hq p _
    · split at h
      · cases h
        exact addPackageUpdate_mono hq p _
      · split at h
        · cases h
        · rename_i results s2 heq2
          cases h
          obtain ⟨mid, hmid, hstep1⟩ := addPackageUpdate_mono hq p
            ({ version := config.version, addToPackageJson := t.addToPackageJson } :
              PackageUpdateData)
          obtain ⟨new, hnew, hstep2⟩ :=
            populateChildren_mono rec hrec _ _ _ _ heq2 q mid hmid
          exact ⟨new, hnew, monoStep_trans hstep1 hstep2⟩

/-- C2: throughout a planning run, `packageUpdates[p].version` never decreases:
every write goes through `addPackageUpdate`, which replaces an existing entry
only with a strictly greater version (after `normalizeVersion`), so across a
whole `populatePackageJsonUpdatesAndGetPackagesToCheck` run every surviving
entry is either unchanged or strictly newer, and in particular never smaller. -/
theorem populate_packageUpdates_monotonic (M : Migrator) :
    ∀ (fuel : Nat) (s : MigState) (p : String) (t : PackageUpdateData)
      (r : List DeferredPackageUpdate) (s' : MigState),
      M.populatePackageJsonUpdatesAndGetPackagesToCheck fuel s p t = .ok (r, s') →
      ∀ q old, alookup s.packageUpdates q = some old →
        ∃ new, alookup s'.packageUpdates q = some new ∧
          (new = old ∨ migratorGt new.version old.version = true) ∧
          migratorLte old.version new.version = true := by
  intro fuel
  induction fuel with
  | zero =>
    intro s p t r s' h
    rw [Migrator.populatePackageJsonUpdatesAndGetPackagesToCheck] at h
    cases h
  | succ n ih =>
    intro s p t r s' h q old hq
    rw [Migrator.populatePackageJsonUpdatesAndGetPackagesToCheck] at h
    dsimp only at h
    split at h
    · cases h
      exact addPackageUpdate_mono hq p _
    · split at h
      · cases h
      · rename_i config heqc
        split at h
        · cases h
        · cases h
          exact ⟨old, hq, Or.inl rfl, migratorLte_refl _⟩
        · rename_i hcol
          exact populateRest_mono M _ (fun s1 p1 t1 r1 s1' hh => ih s1 p1 t1 r1 s1' hh)
            _ p t config r s' h q old hq

/-- C2 witness: planning a not-installed package appends its entry and leaves
the existing `other` entry untouched. -/
theorem populate_packageUpdates_monotonic_witness :
    ∃ s' new,
      w2Migrator.populatePackageJsonUpdatesAndGetPackagesToCheck 1 w2State "newpkg"
          { version := "3.0.0" } = .ok ([], s') ∧
      alookup s'.packageUpdates "other" = some new ∧
      (new = { version := "1.0.0" } ∨ migratorGt new.version "1.0.0" = true) ∧
      migratorLte "1.0.0" new.version = true := by
  have hrun :
      w2Migrator.populatePackageJsonUpdatesAndGetPackagesToCheck 1 w2State "newpkg"
          { version := "3.0.0" } =
        .ok ([],
          { packageUpdates :=
              [("other", { version := "1.0.0" }), ("newpkg", { version := "3.0.0" })] }) := by
    rfl
  obtain ⟨new, h1, h2, h3⟩ :=
    populate_packageUpdates_monotonic w2Migrator 1 w2State "newpkg" _ _ _ hrun "other" _
      (by rfl)
  exact ⟨_, new, hrun, h1, h2, h3⟩

/-! ## C3 and C10: the head of `populatePackageJsonUpdatesAndGetPackagesToCheck` -/

/-- C3: after the fetched document rewrites `targetVersion` to its canonical
`config.version`, a collected version that is `>=` (so also equal to) the
target makes the call return `[]` with the state untouched — no plan entry,
no recursion; otherwise `collectedVersions[pkg]` is set to the target version
and processing continues with the remainder of the procedure. -/
theorem populate_fixedPoint_check (M : Migrator) (fuel : Nat) (s : MigState)
    (p : String) (t : PackageUpdateData) (config : MigrationConfig)
    (hv : strTruthy (M.getPkgVersion s p) = true)
    (hf : M.fetch p (M.resolveToVersion p t.version) = .ok config) :
    (∀ cv, alookup s.collectedVersions p = some cv → cv ≠ "" →
      semverGte cv config.version = some true →
      M.populatePackageJsonUpdatesAndGetPackagesToCheck (fuel + 1) s p t = .ok ([], s)) ∧
    ((match alookup s.collectedVersions p with
      | none => True
      | some cv => cv = "" ∨ semverGte cv config.version = some false) →
      M.populatePackageJsonUpdatesAndGetPackagesToCheck (fuel + 1) s p t =
        M.populateRest
          (fun s' p' t' => M.populatePackageJsonUpdatesAndGetPackagesToCheck fuel s' p' t')
          { s with collectedVersions := setKey s.collectedVersions p config.version }
          p t config) := by
  have hbody :
      M.populatePackageJsonUpdatesAndGetPackagesToCheck (fuel + 1) s p t =
        (match
          (match alookup s.collectedVersions p with
           | some cv =>
             if cv == "" then some false
             else
               match semverGte cv config.version with
               | some b => some b
               | none => none
           | none => some false) with
        | none => .error "Invalid Version"
        | some true => .ok ([], s)
        | some false =>
          M.populateRest
            (fun s' p' t' => M.populatePackageJsonUpdatesAndGetPackagesToCheck fuel s' p' t')
            { s with collectedVersions := setKey s.collectedVersions p config.version }
            p t config) := by
    rw [Migrator.populatePackageJsonUpdatesAndGetPackagesToCheck]
    dsimp only
    rw [hv]
    simp only [Bool.not_true, Bool.false_eq_true, if_false]
    rw [hf]
  constructor
  · intro cv hc hcv hg
    rw [hbody, hc]
    dsimp only
    have hne : ¬((cv == "") = true) := by simp [hcv]
    rw [if_neg hne, hg]
  · intro hstop
    rw [hbody]
    cases hc : alookup s.collectedVersions p with
    | none => rfl
    | some cv =>
      rw [hc] at hstop
      dsimp only
      rcases hstop with rfl | hg
      · rfl
      · by_cases hcv : (cv == "") = true
        · rw [if_pos hcv]
        · rw [if_neg hcv, hg]

/-- C10: a package that is not installed is recorded in the plan with the
caller-requested `target.version` — not the `--to` override, which only
affects the fetch path this branch never reaches — and contributes no
children. -/
theorem populate_notInstalled_with_to_override (M : Migrator) (fuel : Nat) (s : MigState)
    (p : String) (t : PackageUpdateData) (tov : String)
    (hto : alookup M.«to» p = some tov)
    (hni : M.getPkgVersion s p = none) :
    M.populatePackageJsonUpdatesAndGetPackagesToCheck (fuel + 1) s p t =
      .ok ([],
        { s with
          packageUpdates :=
            addPackageUpdate s.packageUpdates p
              { version := t.version, addToPackageJson := t.addToPackageJson } }) := by
  rw [Migrator.populatePackageJsonUpdatesAndGetPackagesToCheck]
  dsimp only
  rw [hni]
  rfl

/-- C3 witness: `pkg` collected at `2.0.0` and fetched again at `2.0.0`
stops with the state unchanged. -/
theorem populate_fixedPoint_check_witness :
    w3Migrator.populatePackageJsonUpdatesAndGetPackagesToCheck 1 w3State "pkg"
        { version := "2.0.0" } = .ok ([], w3State) :=
  (populate_fixedPoint_check w3Migrator 0 w3State "pkg" { version := "2.0.0" }
      { version := "2.0.0" } (by rfl) (by rfl)).1 "2.0.0" (by rfl) (by decide) (by decide)

/-- C10 witness: `newpkg` has a `--to` override of `9.9.9` but is not
installed; the plan entry records the requested `3.0.0` and no children are
returned. -/
theorem populate_notInstalled_with_to_override_witness :
    w2Migrator.populatePackageJsonUpdatesAndGetPackagesToCheck 3 w2State "newpkg"
        { version := "3.0.0" } =
      .ok ([],
        { w2State with
          packageUpdates :=
            addPackageUpdate w2State.packageUpdates "newpkg" { version := "3.0.0" } }) :=
  populate_notInstalled_with_to_override w2Migrator 2 w2State "newpkg"
    { version := "3.0.0" } "9.9.9" (by rfl) (by rfl)

/-! ## C6: the `excludeAppliedMigrations` gate -/

theorem wasMigrationSkipped_iff (M : Migrator) (req : Option VMap) :
    M.wasMigrationSkipped req = true ↔
      ∃ reqs, req = some reqs ∧ reqs ≠ [] ∧
        ∃ pr ∈ reqs,
          (match M.getInstalledPackageVersion pr.1 none with
           | none => True
           | some v => v = "" ∨ M.satisfiesFn v pr.2 = false) := by
  unfold Migrator.wasMigrationSkipped
  cases req with
  | none => simp
  | some reqs =>
    dsimp only
    by_cases he : reqs.isEmpty
    · rw [if_pos he]
      simp only [List.isEmpty_iff] at he
      subst he
      simp
    · rw [if_neg he]
      simp only [List.isEmpty_iff] at he
      rw [List.any_eq_true]
      constructor
      · rintro ⟨pr, hmem, hpr⟩
        refine ⟨reqs, rfl, he, pr, hmem, ?_⟩
        revert hpr
        cases hi : M.getInstalledPackageVersion pr.1 none with
        | none => intro _; trivial
        | some v =>
          dsimp only
          by_cases hv : (v == "") = true
          · rw [beq_iff_eq] at hv
            intro _
            exact Or.inl hv
          · rw [if_neg hv]
            intro hsat
            refine Or.inr ?_
            simpa using hsat
      · rintro ⟨reqs', heq, _, pr, hmem, hpr⟩
        cases heq
        refine ⟨pr, hmem, ?_⟩
        revert hpr
        cases hi : M.getInstalledPackageVersion pr.1 none with
        | none => intro _; rfl
        | some v =>
          dsimp only
          rintro (rfl | hsat)
          · simp
          · by_cases hv : (v == "") = true
            · rw [hv]; simp
            · rw [if_neg hv]
              simpa using hsat

theorem isMigrationForHigherVersion_iff (M : Migrator) (s : MigState) (p : String)
    (m : MigrationsJsonEntry) (pu : PackageUpdateData) (mv : String)
    (hpu : alookup s.packageUpdates p = some pu)
    (hmv : m.version = some mv) (hmv2 : mv ≠ "") :
    M.isMigrationForHigherVersionThanWhatIsInstalled s p m = true ↔
      ((match M.getInstalledPackageVersion p none with
        | none => True
        | some iv => iv = "" ∨ migratorGt mv iv = true) ∧
        migratorLte mv pu.version = true) := by
  unfold Migrator.isMigrationForHigherVersionThanWhatIsInstalled
  rw [hmv]
  dsimp only
  have hmv2' : (mv == "") = false := by simp [hmv2]
  rw [hmv2']
  simp only [Bool.false_eq_true, if_false]
  rw [hpu]
  rw [Bool.and_eq_true]
  constructor
  · rintro ⟨h1, h2⟩
    refine ⟨?_, h2⟩
    revert h1
    cases hi : M.getInstalledPackageVersion p none with
    | none => intro _; trivial
    | some iv =>
      dsimp only
      by_cases hv : (iv == "") = true
      · rw [beq_iff_eq] at hv
        intro _
        exact Or.inl hv
      · rw [if_neg hv]
        intro hgt
        exact Or.inr hgt
  · rintro ⟨h1, h2⟩
    refine ⟨?_, h2⟩
    revert h1
    cases hi : M.getInstalledPackageVersion p none with
    | none => intro _; rfl
    | some iv =>
      dsimp only
      rintro (rfl | hgt)
      · simp
      · by_cases hv : (iv == "") = true
        · rw [hv]; simp
        · rw [if_neg hv]
          exact hgt

/-- C6 (amended): with `excludeAppliedMigrations` unset the gate checks only
the `requires` predicate.  With it set, a migration `m` for a planned package
`p` passes iff ((its `requires` is non-empty and at least one required package
is not installed — per the overrides-free resolver — or fails its range) OR
(`p` is not installed per that resolver, or `m.version` is strictly greater
than that installed version, AND `m.version <= packageUpdates[p].version`))
AND its `requires` predicate is satisfied. -/
theorem areMigrationRequirementsMet_spec (M : Migrator) (s : MigState)
    (p : String) (m : MigrationsJsonEntry) (pu : PackageUpdateData) (mv : String)
    (hpu : alookup s.packageUpdates p = some pu)
    (hmv : m.version = some mv) (hmv2 : mv ≠ "") :
    (M.excludeAppliedMigrations = false →
      M.areMigrationRequirementsMet s p m = M.areRequirementsMet s m.requires none) ∧
    (M.excludeAppliedMigrations = true →
      (M.areMigrationRequirementsMet s p m = true ↔
        ((∃ reqs, m.requires = some reqs ∧ reqs ≠ [] ∧
            ∃ pr ∈ reqs,
              (match M.getInstalledPackageVersion pr.1 none with
               | none => True
               | some v => v = "" ∨ M.satisfiesFn v pr.2 = false)) ∨
          ((match M.getInstalledPackageVersion p none with
            | none => True
            | some iv => iv = "" ∨ migratorGt mv iv = true) ∧
            migratorLte mv pu.version = true)) ∧
        M.areRequirementsMet s m.requires none = true)) := by
  constructor
  · intro hflag
    unfold Migrator.areMigrationRequirementsMet
    rw [hflag]
    rfl
  · intro hflag
    unfold Migrator.areMigrationRequirementsMet
    rw [hflag]
    simp only [Bool.not_true, Bool.false_eq_true, if_false]
    rw [Bool.and_eq_true, Bool.or_eq_true]
    rw [wasMigrationSkipped_iff, isMigrationForHigherVersion_iff M s p m pu mv hpu hmv hmv2]

/-- C6 counterexample: a migration whose version exceeds the planned version
fails the gate although the claim's formula (previously-skipped OR
version-above-installed, AND requires satisfied) accepts it: the gate also
enforces `m.version <= packageUpdates[p].version`. -/
theorem areMigrationRequirementsMet_counterexample :
    c6Migrator.excludeAppliedMigrations = true ∧
    c6Migrator.getInstalledPackageVersion "pkg" none = some "1.0.0" ∧
    alookup c6State.packageUpdates "pkg" = some { version := "2.0.0" } ∧
    c6Migration.version = some "3.0.0" ∧
    c6Migrator.wasMigrationSkipped c6Migration.requires = false ∧
    migratorGt "3.0.0" "1.0.0" = true ∧
    c6Migrator.areRequirementsMet c6State c6Migration.requires none = true ∧
    c6Migrator.areMigrationRequirementsMet c6State "pkg" c6Migration = false :=
  ⟨rfl, rfl, rfl, rfl, rfl, by decide, rfl, by rfl⟩

/-- C6 witness: a migration inside the version window passes the gate, as the
amended equivalence predicts. -/
theorem areMigrationRequirementsMet_spec_witness :
    c6Migrator.areMigrationRequirementsMet c6State "pkg" c6MigrationInWindow = true := by
  have h :=
    (areMigrationRequirementsMet_spec c6Migrator c6State "pkg" c6MigrationInWindow
        { version := "2.0.0" } "2.0.0" (by rfl) rfl (by decide)).2 rfl
  exact h.mpr ⟨Or.inr ⟨Or.inr (by decide), by decide⟩, by rfl⟩

/-! ## C8: the synthetic split-configuration migration -/

/-- C8: whenever a migrations file is written, its content is the split list
followed by the planner's migrations; the split list is the single hard-coded
`15-7-0-split-configuration-into-project-json-files` entry exactly when the
plan contains `@nrwl/workspace` at a version `>= 15.7.0-beta.0` and the prior
installed version is `< 15.7.0-beta.0`, and is empty otherwise. -/
theorem migrationsFileContent_split_prepend («from» : String)
    (packageUpdates : List (String × PackageUpdateData))
    (migrations sl : List OutputMigration)
    (hms : migrations ≠ [])
    (hsl : addSplitConfigurationMigrationIfAvailable «from» packageUpdates = .ok sl) :
    migrationsFileContent «from» packageUpdates migrations = .ok (some (sl ++ migrations)) ∧
    (sl = [splitConfigurationMigration] ∨ sl = []) ∧
    (sl = [splitConfigurationMigration] ↔
      ∃ pu, alookup packageUpdates "@nrwl/workspace" = some pu ∧
        semverGte pu.version "15.7.0-beta.0" = some true ∧
        semverLt «from» "15.7.0-beta.0" = some true) := by
  have hlen : migrations.length > 0 := List.length_pos.2 hms
  refine ⟨?_, ?_⟩
  · unfold migrationsFileContent
    rw [if_pos hlen, hsl]
  · unfold addSplitConfigurationMigrationIfAvailable at hsl
    cases hpu : alookup packageUpdates "@nrwl/workspace" with
    | none =>
      rw [hpu] at hsl
      cases hsl
      refine ⟨Or.inr rfl, ?_⟩
      constructor
      · intro h; simp at h
      · rintro ⟨pu, hpu', _, _⟩
        cases hpu'
    | some pu =>
      rw [hpu] at hsl
      dsimp only at hsl
      cases hg : semverGte pu.version "15.7.0-beta.0" with
      | none => rw [hg] at hsl; cases hsl
      | some gv =>
        rw [hg] at hsl
        cases gv with
        | false =>
          dsimp only at hsl
          cases hsl
          refine ⟨Or.inr rfl, ?_⟩
          constructor
          · intro h; simp at h
          · rintro ⟨pu', hpu', hg', _⟩
            cases hpu'
            exact absurd (hg.symm.trans hg') (by simp)
        | true =>
          dsimp only at hsl
          cases hl : semverLt «from» "15.7.0-beta.0" with
          | none => rw [hl] at hsl; cases hsl
          | some lv =>
            rw [hl] at hsl
            cases lv with
            | false =>
              dsimp only at hsl
              cases hsl
              refine ⟨Or.inr rfl, ?_⟩
              constructor
              · intro h; simp at h
              · rintro ⟨pu', hpu', _, hl'⟩
                exact absurd hl' (by decide)
            | true =>
              dsimp only at hsl
              cases hsl
              exact ⟨Or.inl rfl, fun _ => ⟨pu, rfl, hg, rfl⟩, fun _ => rfl⟩

/-- C8 witness: installed `15.6.0`, planned `15.8.0`: the written migrations
file starts with the hard-coded entry. -/
theorem migrationsFileContent_split_prepend_witness :
    migrationsFileContent "15.6.0" w8PackageUpdates [w8Migration] =
      .ok (some [splitConfigurationMigration, w8Migration]) := by
  have h :=
    (migrationsFileContent_split_prepend "15.6.0" w8PackageUpdates [w8Migration]
        [splitConfigurationMigration] (by decide) (by rfl)).1
  exact h

/-! ## C5: package-group expansion -/

theorem alookup_setKey_eq_ite {α : Type} (l : List (String × α)) (k c : String) (v : α) :
    alookup (setKey l k v) c = if (k == c) = true then some v else alookup l c := by
  by_cases h : (k == c) = true
  · rw [if_pos h, beq_iff_eq] at *
    subst h
    exact alookup_setKey_self l k v
  · rw [if_neg h]
    rw [Bool.not_eq_true] at h
    exact alookup_setKey_ne l k c v h

theorem packageGroupPackages_lookup (pn tv : String) :
    ∀ (group : List PackageGroupEntry) (packages : List (String × PackageUpdateData))
      (ov : VMap) (c : String) (u : PackageUpdateData),
      alookup (packageGroupPackages pn tv group packages ov).1 c = some u →
      (∃ pc ∈ group, pc.package = c ∧
        u = { version := if pc.version == "*" then tv else pc.version,
              alwaysAddToPackageJson := false }) ∨
      alookup packages c = some u := by
  intro group
  induction group with
  | nil =>
    intro packages ov c u h
    exact Or.inr h
  | cons pc rest ih =>
    intro packages ov c u h
    rw [packageGroupPackages] at h
    rcases ih _ _ c u h with hin | hacc
    · obtain ⟨pc', hmem, hpkg, hu⟩ := hin
      exact Or.inl ⟨pc', List.mem_cons_of_mem pc hmem, hpkg, hu⟩
    · rw [alookup_setKey_eq_ite] at hacc
      by_cases hc : (pc.package == c) = true
      · rw [if_pos hc] at hacc
        cases hacc
        rw [beq_iff_eq] at hc
        exact Or.inl ⟨pc, List.mem_cons_self pc rest, hc, rfl⟩
      · rw [if_neg hc] at hacc
        exact Or.inr hacc

theorem packageGroupPackages_presence (pn tv : String) :
    ∀ (group : List PackageGroupEntry) (packages : List (String × PackageUpdateData))
      (ov : VMap) (c : String) (u : PackageUpdateData),
      alookup packages c = some u →
      ∃ u', alookup (packageGroupPackages pn tv group packages ov).1 c = some u' := by
  intro group
  induction group with
  | nil =>
    intro packages ov c u h
    exact ⟨u, h⟩
  | cons pc rest ih =>
    intro packages ov c u h
    rw [packageGroupPackages]
    by_cases hc : (pc.package == c) = true
    · exact ih _ _ c _ (by rw [alookup_setKey_eq_ite, if_pos hc])
    · refine ih _ _ c u ?_
      rw [alookup_setKey_eq_ite, if_neg hc]
      exact h

theorem packageGroupPackages_mem (pn tv : String) :
    ∀ (group : List PackageGroupEntry) (packages : List (String × PackageUpdateData))
      (ov : VMap) (pc : PackageGroupEntry), pc ∈ group →
      ∃ u, alookup (packageGroupPackages pn tv group packages ov).1 pc.package = some u := by
  intro group
  induction group with
  | nil =>
    intro _ _ pc h
    simp at h
  | cons pc0 rest ih =>
    intro packages ov pc hmem
    rcases List.mem_cons.1 hmem with rfl | hmem'
    · rw [packageGroupPackages]
      exact packageGroupPackages_presence pn tv rest _ _ pc.package _
        (alookup_setKey_self packages pc.package _)
    · rw [packageGroupPackages]
      exact ih _ _ pc hmem'

theorem pkgGroupConclusions (targetVersion : String) (config : MigrationConfig)
    (ov : VMap) (group : List PackageGroupEntry) (packageName : String)
    (res : List String × MigrationConfig × VMap)
    (h : (if group.isEmpty then
            Except.ok ([], config, ov)
          else
            Except.ok (group.map (·.package),
              { config with
                packageJsonUpdates :=
                  some
                    (setKey (config.packageJsonUpdates.getD [])
                      (targetVersion ++ "--PackageGroup")
                      { version := targetVersion,
                        packages :=
                          some (packageGroupPackages packageName targetVersion group [] ov).1 }) },
              (packageGroupPackages packageName targetVersion group [] ov).2) :
          Except String (List String × MigrationConfig × VMap)) = .ok res) :
    res.1 = group.map (·.package) ∧
    (group = [] → res.2.1 = config) ∧
    (group ≠ [] →
      ∃ pkgs,
        alookup (res.2.1.packageJsonUpdates.getD []) (targetVersion ++ "--PackageGroup") =
          some { version := targetVersion, packages := some pkgs } ∧
        (∀ c u, alookup pkgs c = some u →
          ∃ pc ∈ group, pc.package = c ∧
            u = { version := if pc.version == "*" then targetVersion else pc.version,
                  alwaysAddToPackageJson := false }) ∧
        (∀ pc ∈ group, ∃ u, alookup pkgs pc.package = some u)) := by
  by_cases hge : group.isEmpty = true
  · rw [if_pos hge] at h
    cases h
    rw [List.isEmpty_iff] at hge
    subst hge
    refine ⟨rfl, fun _ => rfl, fun hne => absurd rfl hne⟩
  · rw [if_neg hge] at h
    cases h
    rw [Bool.not_eq_true, List.isEmpty_eq_false_iff_exists_mem] at hge
    refine ⟨rfl, ?_, ?_⟩
    · intro hemp
      obtain ⟨x, hx⟩ := hge
      rw [hemp] at hx
      simp at hx
    · intro _
      refine ⟨(packageGroupPackages packageName targetVersion group [] ov).1, ?_, ?_, ?_⟩
      · simp only [Option.getD_some]
        rw [alookup_setKey_self]
      · intro c u hu
        rcases packageGroupPackages_lookup packageName targetVersion group [] ov c u hu with
          hin | habs
        · exact hin
        · simp [alookup] at habs
      · intro pc hpc
        exact packageGroupPackages_mem packageName targetVersion group [] ov pc hpc

/-- C5: the expansion uses the legacy built-in group exactly for
`@nrwl/workspace` below `14.0.0-beta.0` (its members all versioned `"*"`
except the cloud package, versioned `"latest"`), and the synthetic
`"<version>--PackageGroup"` update maps every group member to the parent's
`targetVersion` when its group version is `"*"` and to its own version
otherwise. -/
theorem getPackageJsonUpdatesFromPackageGroup_spec (M : Migrator) (s : MigState)
    (packageName targetVersion : String) (config : MigrationConfig)
    (group : List PackageGroupEntry)
    (hg : group =
      (if packageName = "@nrwl/workspace" ∧
          semverLt targetVersion "14.0.0-beta.0" = some true then
        LEGACY_NRWL_PACKAGE_GROUP
      else config.packageGroup.getD []))
    (res : List String × MigrationConfig × VMap)
    (h : M.getPackageJsonUpdatesFromPackageGroup s packageName targetVersion config =
      .ok res) :
    res.1 = group.map (·.package) ∧
    (group = [] → res.2.1 = config) ∧
    (group ≠ [] →
      ∃ pkgs,
        alookup (res.2.1.packageJsonUpdates.getD []) (targetVersion ++ "--PackageGroup") =
          some { version := targetVersion, packages := some pkgs } ∧
        (∀ c u, alookup pkgs c = some u →
          ∃ pc ∈ group, pc.package = c ∧
            u = { version := if pc.version == "*" then targetVersion else pc.version,
                  alwaysAddToPackageJson := false }) ∧
        (∀ pc ∈ group, ∃ u, alookup pkgs pc.package = some u)) ∧
    ((packageName = "@nrwl/workspace" ∧
        semverLt targetVersion "14.0.0-beta.0" = some true) →
      group = LEGACY_NRWL_PACKAGE_GROUP ∧
      ∀ pc ∈ LEGACY_NRWL_PACKAGE_GROUP,
        (pc.package = "@nrwl/nx-cloud" → pc.version = "latest") ∧
        (pc.package ≠ "@nrwl/nx-cloud" → pc.version = "*")) := by
  rw [Migrator.getPackageJsonUpdatesFromPackageGroup] at h
  by_cases hw : (packageName == "@nrwl/workspace") = true
  · rw [beq_iff_eq] at hw
    subst hw
    rw [if_pos (show ("@nrwl/workspace" == "@nrwl/workspace") = true from rfl)] at h
    cases hlt : semverLt targetVersion "14.0.0-beta.0" with
    | none =>
      rw [hlt] at h
      cases h
    | some b =>
      rw [hlt] at h
      cases b with
      | true =>
        dsimp only at h
        have hgl : group = LEGACY_NRWL_PACKAGE_GROUP := by
          rw [hg, if_pos ⟨rfl, hlt⟩]
        rw [hgl]
        obtain ⟨c1, c2, c3⟩ := pkgGroupConclusions targetVersion config
          s.installedPkgVersionOverrides LEGACY_NRWL_PACKAGE_GROUP "@nrwl/workspace" res h
        exact ⟨c1, c2, c3, fun _ => ⟨rfl, by decide⟩⟩
      | false =>
        dsimp only at h
        have hgl : group = config.packageGroup.getD [] := by
          rw [hg, if_neg]
          rintro ⟨_, hc⟩
          exact absurd (hlt.symm.trans hc) (by simp)
        rw [hgl]
        obtain ⟨c1, c2, c3⟩ := pkgGroupConclusions targetVersion config
          s.installedPkgVersionOverrides (config.packageGroup.getD []) "@nrwl/workspace" res h
        refine ⟨c1, c2, c3, ?_⟩
        rintro ⟨_, hc⟩
        exact absurd hc (by decide)
  · rw [if_neg hw] at h
    have hwne : packageName ≠ "@nrwl/workspace" := by
      intro hc
      exact hw (by rw [hc]; rfl)
    have hgl : group = config.packageGroup.getD [] := by
      rw [hg, if_neg]
      rintro ⟨hc, _⟩
      exact hwne hc
    rw [hgl]
    obtain ⟨c1, c2, c3⟩ := pkgGroupConclusions targetVersion config
      s.installedPkgVersionOverrides (config.packageGroup.getD []) packageName res h
    refine ⟨c1, c2, c3, ?_⟩
    rintro ⟨hc, _⟩
    exact absurd hc hwne

/-- C5 witness: expanding `@nrwl/workspace@13.5.0` substitutes the legacy
group and injects the synthetic update. -/
theorem getPackageJsonUpdatesFromPackageGroup_spec_witness :
    ∃ res,
      w1Migrator.getPackageJsonUpdatesFromPackageGroup {} "@nrwl/workspace" "13.5.0"
          { version := "13.5.0" } = .ok res ∧
      res.1 = LEGACY_NRWL_PACKAGE_GROUP.map (·.package) ∧
      ∃ pkgs,
        alookup (res.2.1.packageJsonUpdates.getD []) ("13.5.0" ++ "--PackageGroup") =
          some { version := "13.5.0", packages := some pkgs } := by
  obtain ⟨res, hres⟩ :
      ∃ r,
        w1Migrator.getPackageJsonUpdatesFromPackageGroup {} "@nrwl/workspace" "13.5.0"
            { version := "13.5.0" } = .ok r :=
    ⟨_, by rfl⟩
  obtain ⟨c1, c2, c3, c4⟩ :=
    getPackageJsonUpdatesFromPackageGroup_spec w1Migrator {} "@nrwl/workspace" "13.5.0"
      { version := "13.5.0" } LEGACY_NRWL_PACKAGE_GROUP (by decide) res hres
  obtain ⟨pkgs, hp, _, _⟩ := c3 (by decide)
  exact ⟨res, hres, c1, pkgs, hp⟩

/-! ## C4: `packageJsonUpdates` filtering -/

/-- C4: a candidate update survives the filter exactly when it has a
`packages` object, its version is neither `<=` the installed version nor `>`
the target version (equality with the target admitted), and the per-child
filtering leaves at least one surviving entry; surviving updates carry the
rewritten child map. -/
theorem filterPackageJsonUpdates_spec (M : Migrator) (s : MigState)
    (packageName targetVersion cur : String)
    (hcur : M.getPkgVersion s packageName = some cur) :
    ∀ (us out : List PackageJsonUpdate),
      M.filterPackageJsonUpdates s packageName targetVersion us = .ok out →
      out = us.filterMap fun u =>
        match u.packages with
        | none => none
        | some pkgs =>
          if migratorLte u.version cur || migratorGt u.version targetVersion then none
          else
            if (M.filteredPackages s pkgs).isEmpty then none
            else some { u with packages := some (M.filteredPackages s pkgs) } := by
  intro us
  induction us with
  | nil =>
    intro out h
    rw [Migrator.filterPackageJsonUpdates] at h
    cases h
    rfl
  | cons u rest ih =>
    intro out h
    rw [Migrator.filterPackageJsonUpdates] at h
    cases hp : u.packages with
    | none =>
      rw [hp] at h
      simp only [List.filterMap_cons, hp]
      exact ih out h
    | some pkgs =>
      rw [hp] at h
      dsimp only at h
      rw [hcur] at h
      dsimp only at h
      simp only [List.filterMap_cons, hp]
      by_cases hcond :
          (migratorLte u.version cur || migratorGt u.version targetVersion) = true
      · rw [if_pos hcond] at h
        rw [if_pos hcond]
        exact ih out h
      · rw [if_neg hcond] at h
        rw [if_neg hcond]
        cases hrest : M.filterPackageJsonUpdates s packageName targetVersion rest with
        | error e => rw [hrest] at h; cases h
        | ok rests =>
          rw [hrest] at h
          dsimp only at h
          by_cases hemp : (M.filteredPackages s pkgs).isEmpty = true
          · rw [if_pos hemp] at h
            cases h
            rw [if_pos hemp]
            exact ih _ hrest
          · rw [if_neg hemp] at h
            cases h
            rw [if_neg hemp]
            rw [ih _ hrest]

/-- C4 witness: of the four candidate updates (already passed, beyond target,
in-window, and without `packages`), only the in-window one survives. -/
theorem filterPackageJsonUpdates_spec_witness :
    ∃ out,
      w4Migrator.filterPackageJsonUpdates {} "pkg" "2.0.0" w4Updates = .ok out ∧
      out =
        w4Updates.filterMap fun u =>
          match u.packages with
          | none => none
          | some pkgs =>
            if migratorLte u.version "1.0.0" || migratorGt u.version "2.0.0" then none
            else
              if (w4Migrator.filteredPackages {} pkgs).isEmpty then none
              else some { u with packages := some (w4Migrator.filteredPackages {} pkgs) } := by
  obtain ⟨out, hout⟩ :
      ∃ o, w4Migrator.filterPackageJsonUpdates {} "pkg" "2.0.0" w4Updates = .ok o :=
    ⟨_, by rfl⟩
  exact ⟨out, hout,
    filterPackageJsonUpdates_spec w4Migrator {} "pkg" "2.0.0" "1.0.0" (by rfl) w4Updates out
      hout⟩

/-! ## C1: Phase-2 emission bounds -/

theorem areRequirementsMet_of_gate (M : Migrator) (s : MigState) (p : String)
    (mig : MigrationsJsonEntry)
    (h : M.areMigrationRequirementsMet s p mig = true) :
    M.areRequirementsMet s mig.requires none = true := by
  unfold Migrator.areMigrationRequirementsMet at h
  cases hf : M.excludeAppliedMigrations with
  | false => rw [hf] at h; exact h
  | true =>
    rw [hf] at h
    simp only [Bool.not_true, Bool.false_eq_true, if_false] at h
    rw [Bool.and_eq_true] at h
    exact h.2

theorem createMigrateJsonForPackage_mem (M : Migrator) (s : MigState)
    (packageName : String) (pu : PackageUpdateData) (ms : List OutputMigration)
    (h : M.createMigrateJsonForPackage s packageName pu = .ok ms)
    (m : OutputMigration) (hm : m ∈ ms) :
    m.package = packageName ∧
    ∃ cur mv, M.getPkgVersion s packageName = some cur ∧
      m.version = some mv ∧ mv ≠ "" ∧
      migratorGt mv cur = true ∧ migratorLte mv pu.version = true ∧
      M.areMigrationRequirementsMet s packageName m.toMigrationsJsonEntry = true := by
  unfold Migrator.createMigrateJsonForPackage at h
  cases hcur : M.getPkgVersion s packageName with
  | none =>
    rw [hcur] at h
    cases h
    simp at hm
  | some cur =>
    rw [hcur] at h
    dsimp only at h
    cases hf : M.fetch packageName pu.version with
    | error e => rw [hf] at h; cases h
    | ok config =>
      rw [hf] at h
      dsimp only at h
      cases hg : config.generators with
      | none => rw [hg] at h; cases h; simp at hm
      | some generators =>
        rw [hg] at h
        dsimp only at h
        cases h
        obtain ⟨g, hgmem, hgm⟩ := List.mem_map.1 hm
        obtain ⟨hgen, hpred⟩ := List.mem_filter.1 hgmem
        cases hv : g.2.version with
        | none => rw [hv] at hpred; cases hpred
        | some mv =>
          rw [hv] at hpred
          dsimp only at hpred
          rw [Bool.and_eq_true, Bool.and_eq_true, Bool.and_eq_true] at hpred
          obtain ⟨⟨⟨hne, hgt⟩, hlte⟩, hgate⟩ := hpred
          subst hgm
          refine ⟨rfl, cur, mv, rfl, hv, ?_, hgt, hlte, hgate⟩
          simpa using hne

theorem createMigrateJsonEntries_mem (M : Migrator) (s : MigState) :
    ∀ (l : List (String × PackageUpdateData)) (lists : List (List OutputMigration)),
      M.createMigrateJsonEntries s l = .ok lists →
      ∀ m, m ∈ lists.flatten →
        ∃ pn pu, (pn, pu) ∈ l ∧
          ∃ msP, M.createMigrateJsonForPackage s pn pu = .ok msP ∧ m ∈ msP := by
  intro l
  induction l with
  | nil =>
    intro lists h m hm
    rw [Migrator.createMigrateJsonEntries] at h
    cases h
    simp at hm
  | cons e rest ih =>
    intro lists h m hm
    obtain ⟨pn, pu⟩ := e
    rw [Migrator.createMigrateJsonEntries] at h
    cases h1 : M.createMigrateJsonForPackage s pn pu with
    | error e' => rw [h1] at h; cases h
    | ok msP =>
      rw [h1] at h
      dsimp only at h
      cases h2 : M.createMigrateJsonEntries s rest with
      | error e' => rw [h2] at h; cases h
      | ok rests =>
        rw [h2] at h
        dsimp only at h
        cases h
        rw [List.flatten_cons, List.mem_append] at hm
        rcases hm with hm | hm
        · exact ⟨pn, pu, List.mem_cons_self _ _, msP, h1, hm⟩
        · obtain ⟨pn', pu', hmem, msP', hok, hin⟩ := ih rests h2 m hm
          exact ⟨pn', pu', List.mem_cons_of_mem _ hmem, msP', hok, hin⟩

theorem alookup_of_mem_nodup {α : Type} :
    ∀ {l : List (String × α)}, (l.map Prod.fst).Nodup →
      ∀ {k : String} {v : α}, (k, v) ∈ l → alookup l k = some v := by
  intro l
  induction l with
  | nil =>
    intro _ k v hmem
    simp at hmem
  | cons e rest ih =>
    intro hnd k v hmem
    obtain ⟨k', v'⟩ := e
    rw [List.map_cons, List.nodup_cons] at hnd
    rcases List.mem_cons.1 hmem with heq | hmem'
    · cases heq
      simp [alookup]
    · have hk : k' ≠ k := by
        intro hc
        subst hc
        exact hnd.1 (List.mem_map.2 ⟨(k', v), hmem', rfl⟩)
      rw [alookup, if_neg (by simpa using hk)]
      exact ih hnd.2 hmem'

/-- C1: every migration emitted by Phase 2 belongs to a package whose
installed version (under the `--from` overrides) is non-null, carries a
version strictly above the installed version and at most the planned
`packageUpdates` version (comparisons after `normalizeVersion`), and satisfies
both the full requirements gate and in particular its `requires` predicate at
the given planner state; contrapositively, a package with a null installed
version contributes no migration. -/
theorem createMigrateJson_bounds (M : Migrator) (s : MigState)
    (hnd : (s.packageUpdates.map Prod.fst).Nodup)
    (ms : List OutputMigration) (h : M.createMigrateJson s = .ok ms)
    (m : OutputMigration) (hm : m ∈ ms) :
    ∃ cur pu mv,
      M.getPkgVersion s m.package = some cur ∧
      alookup s.packageUpdates m.package = some pu ∧
      m.version = some mv ∧ mv ≠ "" ∧
      migratorGt mv cur = true ∧
      migratorLte mv pu.version = true ∧
      M.areMigrationRequirementsMet s m.package m.toMigrationsJsonEntry = true ∧
      M.areRequirementsMet s m.toMigrationsJsonEntry.requires none = true := by
  unfold Migrator.createMigrateJson at h
  cases he : M.createMigrateJsonEntries s s.packageUpdates with
  | error e => rw [he] at h; cases h
  | ok lists =>
    rw [he] at h
    dsimp only at h
    cases h
    obtain ⟨pn, pu, hmem, msP, hok, hin⟩ :=
      createMigrateJsonEntries_mem M s s.packageUpdates lists he m hm
    obtain ⟨hpkg, cur, mv, hcur, hv, hne, hgt, hlte, hgate⟩ :=
      createMigrateJsonForPackage_mem M s pn pu msP hok m hin
    subst hpkg
    exact ⟨cur, pu, mv, hcur, alookup_of_mem_nodup hnd hmem, hv, hne, hgt, hlte, hgate,
      areRequirementsMet_of_gate M s m.package m.toMigrationsJsonEntry hgate⟩

/-- C1 witness: in the scenario workspace the emitted `m1` migration sits in
the window `1.0.0 < 1.5.0 <= 2.0.0`. -/
theorem createMigrateJson_bounds_witness :
    ∃ cur pu mv,
      w1Migrator.getPkgVersion w1State "pkg" = some cur ∧
      alookup w1State.packageUpdates "pkg" = some pu ∧
      (some "1.5.0" : Option String) = some mv ∧ mv ≠ "" ∧
      migratorGt mv cur = true ∧
      migratorLte mv pu.version = true ∧
      w1Migrator.areMigrationRequirementsMet w1State "pkg"
          { version := some "1.5.0" } = true ∧
      w1Migrator.areRequirementsMet w1State
          ({ version := some "1.5.0" } : MigrationsJsonEntry).requires none = true := by
  have hrun :
      w1Migrator.createMigrateJson w1State =
        .ok
          [⟨{ version := some "1.5.0" }, "pkg", "m1"⟩,
           ⟨{ version := some "2.0.0" }, "pkg", "m2"⟩] := by
    rfl
  exact createMigrateJson_bounds w1Migrator w1State (by decide) _ hrun
    ⟨{ version := some "1.5.0" }, "pkg", "m1"⟩ (List.mem_cons_self _ _)
